import Mathlib

/-!
Shallow embedding of `lexer.hpp` (glampert/parse-utils): the `lexer::token`
value class and the `lexer` scanner state machine, translated from the C++
source so that the specification claims C1..C10 can be settled as theorems.

Modelling conventions:
* C `char` values are modelled as `Nat` byte values (the scanner is used on
  ASCII input; the source compares raw `char`s).
* Token text and script buffers are `List Nat`.  The source relies on a NUL
  terminator at `buffer[length]`; reads past the end of the list yield the
  sentinel byte `0` (`List.getD _ 0`), which matches that convention.
* `std::uint64_t` / `std::uint32_t` arithmetic is `Nat`/`Int` arithmetic
  reduced `% 2^64` / `% 2^32` exactly where the C++ integer types wrap.
* `double` values are an inductive `double_val`: a finite rational, or the
  infinity / NaN exception patterns produced for `1.#INF` / `1.#IND` /
  `1.#NAN` tokens.  Finite double arithmetic in `update_cached_values` is
  modelled exactly over `ℚ`; the one place where a claim depends on double
  rounding (the `new_double_val = new_u64_val` uint64-to-double conversion)
  is modelled bit-exactly by IEEE-754 round-to-nearest-even (`rnDouble`).
  Conversions that are undefined behaviour in C++ (casting a negative,
  out-of-range, or NaN double to `uint64_t`) are modelled as `0`.
* Unbounded scanning loops are written with an explicit `fuel` argument;
  every loop advances the read position by at least one character per
  iteration and stops at the NUL sentinel, so `buffer length + 1` fuel always
  suffices (the top-level wrappers pass exactly that).
-/

namespace lexer

/-- Main token category (`lexer::token::type`). -/
inductive toktype : Type where
  | none
  | number
  | string
  | literal
  | identifier
  | punctuation
deriving DecidableEq, Repr, Inhabited

namespace tokflags

/-- Subtype flag bits (`lexer::token::flags`). -/
def integer            : Nat := 1 <<< 0
def signed_integer     : Nat := 1 <<< 1
def unsigned_integer   : Nat := 1 <<< 2
def binary             : Nat := 1 <<< 3
def octal              : Nat := 1 <<< 4
def decimal            : Nat := 1 <<< 5
def hexadecimal        : Nat := 1 <<< 6
def floating_point     : Nat := 1 <<< 7
def single_precision   : Nat := 1 <<< 8
def double_precision   : Nat := 1 <<< 9
def extended_precision : Nat := 1 <<< 10
def infinite           : Nat := 1 <<< 11
def indefinite         : Nat := 1 <<< 12
def nan                : Nat := 1 <<< 13
def ip_address         : Nat := 1 <<< 14
def ip_port            : Nat := 1 <<< 15
def boolean            : Nat := 1 <<< 16

end tokflags

/-- Model of a C++ `double` value: finite (exact rational), or one of the
IEEE-754 exception patterns the lexer materializes (`0x7F800000` infinity,
`0xFFC00000` / `0x7FC00000` NaNs; both NaN patterns collapse to `nan`). -/
inductive double_val : Type where
  | finite (q : ℚ)
  | infinite
  | nan
deriving DecidableEq, Repr, Inhabited

/-- Truncation toward zero of a rational, as performed by a C++ cast of a
`double` to an integer type (`Int.tdiv` is T-division). -/
def ratTruncZ (q : ℚ) : ℤ := Int.tdiv q.num (q.den : ℤ)

/-- Floor of the base-2 logarithm, by structural recursion on a halving
budget (64 halvings cover every `uint64` value, the only range this
development applies it to). -/
def floorLog2Aux : Nat → Nat → Nat
  | 0, _ => 0
  | fuel + 1, n => if 2 ≤ n then floorLog2Aux fuel (n / 2) + 1 else 0

/-- Floor log2 for `uint64`-range inputs. -/
def floorLog2 (n : Nat) : Nat := floorLog2Aux 64 n

/-- IEEE-754 `uint64 → double` conversion (round to nearest, ties to even):
integers up to `2^53` are exact; larger values round to a multiple of
`2^(log2 n - 52)`.  This models the C++ implicit conversion
`new_double_val = new_u64_val`. -/
def rnDouble (n : Nat) : Nat :=
  if n ≤ 2 ^ 53 then n
  else
    let e := floorLog2 n
    let q := 2 ^ (e - 52)
    let lo := n / q * q
    let r := n % q
    if 2 * r < q then lo
    else if q < 2 * r then lo + q
    else if (n / q) % 2 = 0 then lo else lo + q

/-- Cast of a `double` to `std::uint64_t`.  Defined (as truncation) only for
finite values in `[0, 2^64)`; all undefined-behaviour cases are modelled
as `0`. -/
def dvalToU64 : double_val → Nat
  | double_val.finite q => if 0 ≤ q ∧ q < 2 ^ 64 then (ratTruncZ q).toNat else 0
  | double_val.infinite => 0
  | double_val.nan => 0

/-- Reinterpretation of a `std::uint64_t` value as `std::int64_t`
(`static_cast<std::int64_t>` in `token::as_int64`). -/
def toInt64 (n : Nat) : ℤ :=
  if n % 2 ^ 64 < 2 ^ 63 then ((n % 2 ^ 64 : Nat) : ℤ)
  else ((n % 2 ^ 64 : Nat) : ℤ) - 2 ^ 64

/-- The `lexer::token` value class.  Field names follow the source. -/
structure token : Type where
  m_string        : List Nat   := []
  m_flags         : Nat        := 0
  m_line_num      : Nat        := 0
  m_lines_crossed : Nat        := 0
  m_type          : toktype    := toktype.none
  m_values_valid  : Bool       := true
  m_u64_value     : Nat        := 0
  m_double_value  : double_val := double_val.finite 0
deriving DecidableEq, Repr, Inhabited

namespace token

/-- Query `token::is_number`. -/
def is_number (t : token) : Bool := t.m_type = toktype.number

/-- Query `token::is_boolean` (a flag test, not a type test). -/
def is_boolean (t : token) : Bool := t.m_flags &&& tokflags.boolean ≠ 0

/-- Query `token::is_integer`. -/
def is_integer (t : token) : Bool := t.m_flags &&& tokflags.integer ≠ 0

/-- Query `token::is_float`. -/
def is_float (t : token) : Bool := t.m_flags &&& tokflags.floating_point ≠ 0

/-- Query `token::is_punctuation`. -/
def is_punct (t : token) : Bool := t.m_type = toktype.punctuation

/-- Integer-part loop of the float parser in `token::update_cached_values`:
`while (*p && *p != '.' && *p != 'e') val = val*10 + (*p - '0')`.
Returns the accumulated value and the unconsumed rest. -/
def fltIntPart : List Nat → ℚ → ℚ × List Nat
  | [], v => (v, [])
  | c :: rest, v =>
    if c = 46 ∨ c = 101 then (v, c :: rest)
    else fltIntPart rest (v * 10 + ((c : ℚ) - 48))

/-- Fraction loop: `for (m = 0.1; *p && *p != 'e'; ++p) { val += (*p-'0')*m; m *= 0.1 }`
(the repeated `double` operations are modelled exactly over `ℚ`). -/
def fltFracPart : List Nat → ℚ → ℚ → ℚ × List Nat
  | [], v, _ => (v, [])
  | c :: rest, v, m =>
    if c = 101 then (v, c :: rest)
    else fltFracPart rest (v + ((c : ℚ) - 48) * m) (m * (1 / 10))

/-- Exponent digit loop: `for (pow = 0; *p; ++p) pow = pow*10 + (*p - '0')`. -/
def fltExpDigits : List Nat → ℤ → ℤ
  | [], pw => pw
  | c :: rest, pw => fltExpDigits rest (pw * 10 + ((c : ℤ) - 48))

/-- The full finite-float text parser of `token::update_cached_values`
(integer part, optional `.` fraction, optional `e[+-]` exponent whose scale
loop `for (m = 1, i = 0; i < pow; ++i) m *= 10` leaves `m = 1` for a
non-positive exponent). -/
def parseFloatText (s : List Nat) : ℚ :=
  let r0 := fltIntPart s 0
  let r1 := match r0.2 with
    | 46 :: rest => fltFracPart rest r0.1 (1 / 10)
    | other => (r0.1, other)
  match r1.2 with
  | 101 :: rest =>
    let sr : Bool × List Nat := match rest with
      | 45 :: rr => (true, rr)
      | 43 :: rr => (false, rr)
      | other => (false, other)
    let pw := fltExpDigits sr.2 0
    let m : ℚ := 10 ^ (if 0 ≤ pw then pw.toNat else 0)
    if sr.1 then r1.1 / m else r1.1 * m
  | _ => r1.1

/-- Conversion of an `Int` expression result to `std::uint64_t` (the C++
integral conversion reduces the value mod `2^64`). -/
def u64of (z : ℤ) : Nat := (z.emod (2 ^ 64)).toNat

/-- Conversion of an `Int` expression result to `std::uint32_t`. -/
def u32of (z : ℤ) : Nat := (z.emod (2 ^ 32)).toNat

/-- Decimal integer loop: `new_u64_val = new_u64_val * 10 + (*p - '0')`. -/
def parseDecU64 : List Nat → Nat → Nat
  | [], v => v
  | c :: rest, v => parseDecU64 rest (u64of ((v : ℤ) * 10 + ((c : ℤ) - 48)))

/-- Octal integer loop: `new_u64_val = (new_u64_val << 3) + (*p - '0')`
(the uint64 shift wraps mod `2^64`, which composes with the final wrap). -/
def parseOctU64 : List Nat → Nat → Nat
  | [], v => v
  | c :: rest, v => parseOctU64 rest (u64of ((v : ℤ) * 8 + ((c : ℤ) - 48)))

/-- Value of one hexadecimal text character exactly as the source computes it
(`a..f` and `A..F` map to 10..15, anything else goes through `*p - '0'`). -/
def hexCharVal (c : Nat) : ℤ :=
  if 97 ≤ c ∧ c ≤ 102 then (c : ℤ) - 97 + 10
  else if 65 ≤ c ∧ c ≤ 70 then (c : ℤ) - 65 + 10
  else (c : ℤ) - 48

/-- Hexadecimal integer loop: `new_u64_val <<= 4; new_u64_val += digit`. -/
def parseHexU64 : List Nat → Nat → Nat
  | [], v => v
  | c :: rest, v => parseHexU64 rest (u64of ((v : ℤ) * 16 + hexCharVal c))

/-- Binary integer loop: `new_u64_val = (new_u64_val << 1) + (*p - '0')`. -/
def parseBinU64 : List Nat → Nat → Nat
  | [], v => v
  | c :: rest, v => parseBinU64 rest (u64of ((v : ℤ) * 2 + ((c : ℤ) - 48)))

/-- IP-address loop of `update_cached_values`: `'.'` or `':'` advances the
octet index, any other character is accumulated decimally into the current
`std::uint32_t` cell.  The cell array is modelled as a total function so the
(unreachable for scanner-produced tokens) out-of-bounds writes stay typed. -/
def parseIpCells : List Nat → Nat → (Nat → Nat) → (Nat → Nat)
  | [], _, ip => ip
  | c :: rest, i, ip =>
    if c = 46 ∨ c = 58 then parseIpCells rest (i + 1) ip
    else
      parseIpCells rest i
        (fun j => if j = i then u32of ((ip i : ℤ) * 10 + ((c : ℤ) - 48)) else ip j)

/-- ASCII bytes of the text `true`. -/
def trueBytes : List Nat := [116, 114, 117, 101]

/-- Translation of `token::update_cached_values`: recompute `m_u64_value` and
`m_double_value` from the current text and flags and set the valid bit. -/
def update_cached_values (t : token) : token :=
  if t.m_flags &&& tokflags.floating_point ≠ 0 then
    if t.m_flags &&& (tokflags.infinite ||| tokflags.indefinite ||| tokflags.nan) ≠ 0 then
      let d :=
        if t.m_flags &&& tokflags.infinite ≠ 0 then double_val.infinite
        else if t.m_flags &&& tokflags.indefinite ≠ 0 then double_val.nan
        else double_val.nan
      { t with m_u64_value := dvalToU64 d, m_double_value := d, m_values_valid := true }
    else
      let d := double_val.finite (parseFloatText t.m_string)
      { t with m_u64_value := dvalToU64 d, m_double_value := d, m_values_valid := true }
  else if t.m_flags &&& tokflags.decimal ≠ 0 then
    let v := parseDecU64 t.m_string 0
    { t with m_u64_value := v, m_double_value := double_val.finite (rnDouble v),
             m_values_valid := true }
  else if t.m_flags &&& tokflags.octal ≠ 0 then
    let v := parseOctU64 (t.m_string.drop 1) 0
    { t with m_u64_value := v, m_double_value := double_val.finite (rnDouble v),
             m_values_valid := true }
  else if t.m_flags &&& tokflags.hexadecimal ≠ 0 then
    let v := parseHexU64 (t.m_string.drop 2) 0
    { t with m_u64_value := v, m_double_value := double_val.finite (rnDouble v),
             m_values_valid := true }
  else if t.m_flags &&& tokflags.binary ≠ 0 then
    let v := parseBinU64 (t.m_string.drop 2) 0
    { t with m_u64_value := v, m_double_value := double_val.finite (rnDouble v),
             m_values_valid := true }
  else if t.m_flags &&& tokflags.ip_address ≠ 0 then
    let ip := parseIpCells t.m_string 0 (fun _ => 0)
    let ip_word : Nat :=
      (ip 0 <<< 24) % 2 ^ 32 ||| (ip 1 <<< 16) % 2 ^ 32 |||
      (ip 2 <<< 8) % 2 ^ 32 ||| ip 3
    let v := (ip 4 <<< 32) ||| ip_word
    { t with m_u64_value := v, m_double_value := double_val.finite (rnDouble v),
             m_values_valid := true }
  else if t.m_flags &&& tokflags.boolean ≠ 0 then
    let v : Nat := if t.m_string = trueBytes then 1 else 0
    { t with m_u64_value := v, m_double_value := double_val.finite (rnDouble v),
             m_values_valid := true }
  else
    { t with m_u64_value := 0, m_double_value := double_val.finite 0,
             m_values_valid := true }

/-- Accessor `token::get_value_u64` (recomputes the cache when invalid). -/
def get_value_u64 (t : token) : Nat :=
  if ¬ (t.is_number = true) ∧ ¬ (t.is_boolean = true) then 0
  else if t.m_values_valid = false then (update_cached_values t).m_u64_value
  else t.m_u64_value

/-- Accessor `token::get_value_double`. -/
def get_value_double (t : token) : double_val :=
  if ¬ (t.is_number = true) ∧ ¬ (t.is_boolean = true) then double_val.finite 0
  else if t.m_values_valid = false then (update_cached_values t).m_double_value
  else t.m_double_value

/-- Accessor `token::as_int64`. -/
def as_int64 (t : token) : ℤ := toInt64 (get_value_u64 t)

/-- Accessor `token::as_uint64`. -/
def as_uint64 (t : token) : Nat := get_value_u64 t

/-- Accessor `token::as_double`. -/
def as_double (t : token) : double_val := get_value_double t

/-- Mutator `token::set_string` (invalidates the cached values). -/
def set_string (t : token) (s : List Nat) : token :=
  { t with m_string := s, m_values_valid := false }

/-- Mutator `token::set_flags` (invalidates the cached values). -/
def set_flags (t : token) (f : Nat) : token :=
  { t with m_flags := f, m_values_valid := false }

/-- Mutator `token::set_line_number` (does not touch the cache). -/
def set_line_number (t : token) (n : Nat) : token := { t with m_line_num := n }

/-- Mutator `token::set_lines_crossed` (does not touch the cache). -/
def set_lines_crossed (t : token) (n : Nat) : token := { t with m_lines_crossed := n }

/-- Mutator `token::set_type` (invalidates the cached values). -/
def set_type (t : token) (ty : toktype) : token :=
  { t with m_type := ty, m_values_valid := false }

/-- Mutator `token::append(char)`: a NUL character is ignored, anything else
is appended and invalidates the cache. -/
def append_char (t : token) (c : Nat) : token :=
  if c ≠ 0 then { t with m_string := t.m_string ++ [c], m_values_valid := false }
  else t

/-- Mutator `token::append(const char*)`: a null/empty C string is ignored
(the model has no null pointer; the empty list covers `*str == '\0'`). -/
def append_str (t : token) (s : List Nat) : token :=
  if s.headD 0 ≠ 0 then { t with m_string := t.m_string ++ s, m_values_valid := false }
  else t

/-- Mutator `token::clear`. -/
def clear (_t : token) : token :=
  { m_string := [], m_flags := 0, m_line_num := 0, m_lines_crossed := 0,
    m_type := toktype.none, m_values_valid := true, m_u64_value := 0,
    m_double_value := double_val.finite 0 }

/-- Comparison `token::operator==(char)`. -/
def eq_char (t : token) (c : Nat) : Bool :=
  t.m_string.length == 1 && t.m_string.getD 0 0 == c

/-- Comparison `token::operator!=(char)`.  Note: this is NOT the negation of
`eq_char`; the length test is not negated in the source. -/
def neq_char (t : token) (c : Nat) : Bool :=
  t.m_string.length == 1 && t.m_string.getD 0 0 != c

/-- ASCII bytes of the text `false`. -/
def falseBytes : List Nat := [102, 97, 108, 115, 101]

end token

/-- One entry of a punctuation set (`lexer::punctuation_def`): the text (a
null pointer for the `punctuation_id::none` sentinel) and the id tag,
modelled as the raw enumerator value. -/
structure punctuation_def : Type where
  str : Option (List Nat)
  id  : Nat
deriving DecidableEq, Repr

instance : Inhabited punctuation_def := ⟨⟨none, 0⟩⟩

/-- Length (`std::strlen`) of the text of the punctuation entry at index
`n` of the set (0 for the null sentinel, which is never compared). -/
def pstrlen (ps : List punctuation_def) (n : Nat) : Nat :=
  ((ps.getD n default).str.getD []).length

/-- Chain insertion performed by one iteration of
`lexer::set_punctuation_tables`: the source walks the head-table/next-array
chain of the entry's first character and splices index `i` in front of the
first entry whose text is strictly shorter, or at the tail.  On the list of
chained indices that pointer surgery is exactly this insertion. -/
def insertChain (ps : List punctuation_def) (i : Nat) : List Nat → List Nat
  | [] => [i]
  | n :: rest =>
    if pstrlen ps n < pstrlen ps i then i :: n :: rest
    else n :: insertChain ps i rest

/-- Processing of entry `i` in the build loop of `set_punctuation_tables`:
null-text entries are skipped, any other entry is inserted into the chain
headed by its first character. -/
def buildChainsStep (ps : List punctuation_def) (tbl : Nat → List Nat) (i : Nat) :
    Nat → List Nat :=
  match (ps.getD i default).str with
  | none => tbl
  | some s =>
    let c0 := s.headD 0
    fun c => if c = c0 then insertChain ps i (tbl c0) else tbl c

/-- The per-first-character chains built by `lexer::set_punctuation_tables`
(the `punctuations_table[256]` heads plus the `punctuations_next` links, read
back as the list of indices obtained by walking each chain). -/
def buildChains (ps : List punctuation_def) : Nat → List Nat :=
  (List.range ps.length).foldl (buildChainsStep ps) (fun _ => [])

/-- Character of the script buffer at an absolute offset; offsets at or past
the end read the NUL sentinel the source guarantees at `buffer[length]`. -/
def bAt (buf : List Nat) (k : Nat) : Nat := buf.getD k 0

/-- Inner matching loop of `lexer::internal_read_punctuation`:
`for (l = 0; chars[l] && m_script_ptr[l]; ++l) if (mismatch) break;`.
Returns the final `l`; the match succeeded iff `chars[l]` is the NUL
terminator. -/
def pmLen (buf : List Nat) (pos : Nat) : List Nat → Nat → Nat
  | [], k => k
  | a :: rest, k =>
    if a = 0 then k
    else if bAt buf (pos + k) = 0 then k
    else if bAt buf (pos + k) ≠ a then k
    else pmLen buf pos rest (k + 1)

/-- Chain walk of `lexer::internal_read_punctuation`: try each candidate in
chain order; on the first whose text is exhausted by the matching loop,
append the matched characters (`append` ignores the trailing NUL), advance
the script pointer by `l` and tag the token (the punctuation id is stored in
the flags field). -/
def rpChain (ps : List punctuation_def) (buf : List Nat) (pos : Nat) (tok : token) :
    List Nat → Option (token × Nat)
  | [] => none
  | n :: rest =>
    match (ps.getD n default).str with
    | none => rpChain ps buf pos tok rest
    | some chars =>
      let l := pmLen buf pos chars 0
      if chars.getD l 0 = 0 then
        let tok1 := (chars.take (l + 1)).foldl token.append_char tok
        some ((tok1.set_type toktype.punctuation).set_flags (ps.getD n default).id, pos + l)
      else rpChain ps buf pos tok rest

/-- Translation of `lexer::internal_read_punctuation` against a given
punctuation set and its built chains. -/
def internal_read_punctuation (ps : List punctuation_def) (chains : Nat → List Nat)
    (buf : List Nat) (pos : Nat) (tok : token) : Option (token × Nat) :=
  rpChain ps buf pos tok (chains (bAt buf pos))

namespace lexflags

/-- Scanner flag bits (`lexer::flags`). -/
def no_errors                     : Nat := 1 <<< 0
def no_warnings                   : Nat := 1 <<< 1
def no_fatal_errors               : Nat := 1 <<< 2
def no_string_concat              : Nat := 1 <<< 3
def no_string_escape_chars        : Nat := 1 <<< 4
def allow_path_names              : Nat := 1 <<< 5
def allow_number_names            : Nat := 1 <<< 6
def allow_ip_addresses            : Nat := 1 <<< 7
def allow_float_exceptions        : Nat := 1 <<< 8
def allow_multi_char_literals     : Nat := 1 <<< 9
def allow_backslash_string_concat : Nat := 1 <<< 10
def only_strings                  : Nat := 1 <<< 11

end lexflags

/-- Blank-skipping loop of `lexer::internal_read_whitespace`:
`while (*p <= ' ') { if (!*p) return false; if (*p == '\n') ++line; ++p }`. -/
def wsSkipBlanks (buf : List Nat) : Nat → Nat → Nat → Bool × Nat × Nat
  | 0, pos, line => (false, pos, line)
  | fuel + 1, pos, line =>
    if bAt buf pos ≤ 32 then
      if bAt buf pos = 0 then (false, pos, line)
      else wsSkipBlanks buf fuel (pos + 1) (if bAt buf pos = 10 then line + 1 else line)
    else (true, pos, line)

/-- Rest of a `//` comment, entered with the position on the second slash:
`do { ++p; if (!*p) return false; } while (*p != '\n'); ++line; ++p;
if (!*p) return false;`. -/
def lineCommentRest (buf : List Nat) : Nat → Nat → Nat → Bool × Nat × Nat
  | 0, pos, line => (false, pos, line)
  | fuel + 1, pos, line =>
    let pos := pos + 1
    if bAt buf pos = 0 then (false, pos, line)
    else if bAt buf pos ≠ 10 then lineCommentRest buf fuel pos line
    else
      let line := line + 1
      let pos := pos + 1
      if bAt buf pos = 0 then (false, pos, line)
      else (true, pos, line)

/-- Rest of a `/* ... */` comment, entered with the position on the `*` of
the opener.  Mirrors the inner `for (;;)` loop: newline counts lines, a `/`
preceded by `*` ends the comment (position left on that `/`), a `/` followed
by `*` warns about nesting.  The last component accumulates warnings. -/
def blockCommentRest (buf : List Nat) : Nat → Nat → Nat → Nat → Bool × Nat × Nat × Nat
  | 0, pos, line, w => (false, pos, line, w)
  | fuel + 1, pos, line, w =>
    let pos := pos + 1
    if bAt buf pos = 0 then (false, pos, line, w)
    else if bAt buf pos = 10 then blockCommentRest buf fuel pos (line + 1) w
    else if bAt buf pos = 47 then
      if bAt buf (pos - 1) = 42 then (true, pos, line, w)
      else blockCommentRest buf fuel pos line (if bAt buf (pos + 1) = 42 then w + 1 else w)
    else blockCommentRest buf fuel pos line w

/-- Outer loop of `lexer::internal_read_whitespace`.  Note the faithful
translation of the source's double `++m_script_ptr` after a closing `*/`
(its sibling `lexer::skip_whitespace` advances only once there). -/
def wsLoop (buf : List Nat) : Nat → Nat → Nat → Nat → Bool × Nat × Nat × Nat
  | 0, pos, line, w => (false, pos, line, w)
  | fuel + 1, pos, line, w =>
    match wsSkipBlanks buf (buf.length + 1) pos line with
    | (false, p, l) => (false, p, l, w)
    | (true, p, l) =>
      if bAt buf p = 47 ∧ bAt buf (p + 1) = 47 then
        match lineCommentRest buf (buf.length + 1) (p + 1) l with
        | (false, p2, l2) => (false, p2, l2, w)
        | (true, p2, l2) => wsLoop buf fuel p2 l2 w
      else if bAt buf p = 47 ∧ bAt buf (p + 1) = 42 then
        match blockCommentRest buf (buf.length + 1) (p + 1) l w with
        | (false, p2, l2, w2) => (false, p2, l2, w2)
        | (true, p2, l2, w2) =>
          let p3 := p2 + 1
          if bAt buf p3 = 0 then (false, p3, l2, w2)
          else
            let p4 := p3 + 1
            if bAt buf p4 = 0 then (false, p4, l2, w2)
            else wsLoop buf fuel p4 l2 w2
      else (true, p, l, w)

/-- Translation of `lexer::internal_read_whitespace`.  Returns
`(found-nonblank?, pos, line, warning-increment)`. -/
def internal_read_whitespace (buf : List Nat) (pos line : Nat) : Bool × Nat × Nat × Nat :=
  wsLoop buf (buf.length + 1) pos line 0

/-- Hex-digit loop of the `\x` escape.  The source accepts the whole letter
ranges `A..Z` and `a..z` as "hex digits" with value `c - 'A' + 10`; the
`int val` accumulator is modelled exactly over `ℤ` (it overflows, which is
undefined behaviour, only for inputs far outside those the claims use). -/
def escHexLoop (buf : List Nat) : Nat → Nat → ℤ → Nat × ℤ
  | 0, pos, val => (pos, val)
  | fuel + 1, pos, val =>
    let c := bAt buf pos
    if 48 ≤ c ∧ c ≤ 57 then escHexLoop buf fuel (pos + 1) (val * 16 + ((c : ℤ) - 48))
    else if 65 ≤ c ∧ c ≤ 90 then escHexLoop buf fuel (pos + 1) (val * 16 + ((c : ℤ) - 65 + 10))
    else if 97 ≤ c ∧ c ≤ 122 then escHexLoop buf fuel (pos + 1) (val * 16 + ((c : ℤ) - 97 + 10))
    else (pos, val)

/-- Decimal-digit loop of the numeric escape: `val = val * 10 + (c - '0')`. -/
def escDecLoop (buf : List Nat) : Nat → Nat → ℤ → Nat × ℤ
  | 0, pos, val => (pos, val)
  | fuel + 1, pos, val =>
    let c := bAt buf pos
    if 48 ≤ c ∧ c ≤ 57 then escDecLoop buf fuel (pos + 1) (val * 10 + ((c : ℤ) - 48))
    else (pos, val)

/-- Translation of `lexer::internal_read_escape_character`, entered with the
position on the backslash.  Returns `(value or error, next position,
warning increment)`; a `none` result is the `error(...)` return (the caller
accounts the error-count increment). -/
def internal_read_escape_character (buf : List Nat) (pos0 : Nat) : Option Nat × Nat × Nat :=
  let pos := pos0 + 1
  let c := bAt buf pos
  if c = 48 then (some 0, pos + 1, 0)
  else if c = 110 then (some 10, pos + 1, 0)
  else if c = 114 then (some 13, pos + 1, 0)
  else if c = 116 then (some 9, pos + 1, 0)
  else if c = 118 then (some 11, pos + 1, 0)
  else if c = 98 then (some 8, pos + 1, 0)
  else if c = 102 then (some 12, pos + 1, 0)
  else if c = 97 then (some 7, pos + 1, 0)
  else if c = 92 then (some 92, pos + 1, 0)
  else if c = 39 then (some 39, pos + 1, 0)
  else if c = 34 then (some 34, pos + 1, 0)
  else if c = 63 then (some 63, pos + 1, 0)
  else if c = 120 then
    let r := escHexLoop buf (buf.length + 1) (pos + 1) 0
    if 255 < r.2 then (some 255, r.1, 1) else (some r.2.toNat, r.1, 0)
  else if c < 48 ∨ 57 < c then (none, pos, 0)
  else
    let r := escDecLoop buf (buf.length + 1) pos 0
    if 255 < r.2 then (some 255, r.1, 1) else (some r.2.toNat, r.1, 0)

/-- Result record for `internal_read_string` (success flag, token, position,
line, error and warning increments). -/
structure strres : Type where
  ok    : Bool
  tok   : token
  pos   : Nat
  line  : Nat
  derr  : Nat
  dwarn : Nat
deriving Repr

/-- Main loop of `lexer::internal_read_string`: escapes, ordinary
characters, and the trailing-quote logic with whitespace-separated (or
backslash-separated) string concatenation; NUL and newline inside the string
are errors. -/
def readStringLoop (buf : List Nat) (flags : Nat) (quote : Nat) :
    Nat → token → Nat → Nat → Nat → Nat → strres
  | 0, tok, pos, line, de, dw => ⟨false, tok, pos, line, de, dw⟩
  | fuel + 1, tok, pos, line, de, dw =>
    if bAt buf pos = 92 ∧ flags &&& lexflags.no_string_escape_chars = 0 then
      match internal_read_escape_character buf pos with
      | (none, p2, dw2) => ⟨false, tok, p2, line, de + 1, dw + dw2⟩
      | (some ch, p2, dw2) =>
        readStringLoop buf flags quote fuel (tok.append_char ch) p2 line de (dw + dw2)
    else if bAt buf pos = quote then
      let pos := pos + 1
      if flags &&& lexflags.no_string_concat ≠ 0 ∧
         (flags &&& lexflags.allow_backslash_string_concat = 0 ∨ quote ≠ 34) then
        ⟨true, tok, pos, line, de, dw⟩
      else
        match internal_read_whitespace buf pos line with
        | (false, _, _, dw2) => ⟨true, tok, pos, line, de, dw + dw2⟩
        | (true, p2, l2, dw2) =>
          if flags &&& lexflags.no_string_concat ≠ 0 then
            if bAt buf p2 ≠ 92 then ⟨true, tok, pos, line, de, dw + dw2⟩
            else
              match internal_read_whitespace buf (p2 + 1) l2 with
              | (false, p3, l3, dw3) => ⟨false, tok, p3, l3, de + 1, dw + dw2 + dw3⟩
              | (true, p3, l3, dw3) =>
                if bAt buf p3 ≠ quote then ⟨false, tok, p3, l3, de + 1, dw + dw2 + dw3⟩
                else readStringLoop buf flags quote fuel tok (p3 + 1) l3 de (dw + dw2 + dw3)
          else if bAt buf p2 ≠ quote then ⟨true, tok, pos, line, de, dw + dw2⟩
          else readStringLoop buf flags quote fuel tok (p2 + 1) l2 de (dw + dw2)
    else
      if bAt buf pos = 0 then ⟨false, tok, pos, line, de + 1, dw⟩
      else if bAt buf pos = 10 then ⟨false, tok, pos, line, de + 1, dw⟩
      else readStringLoop buf flags quote fuel (tok.append_char (bAt buf pos)) (pos + 1) line de dw

/-- Translation of `lexer::internal_read_string` (quote kind selects the
token type, the loop runs from past the leading quote, and an over-long
character literal is an error unless `allow_multi_char_literals`). -/
def internal_read_string (buf : List Nat) (flags : Nat) (quote : Nat) (tok : token)
    (pos line : Nat) : strres :=
  let tok := if quote = 34 then tok.set_type toktype.string else tok.set_type toktype.literal
  let r := readStringLoop buf flags quote (buf.length + 1) tok (pos + 1) line 0 0
  if r.ok then
    if r.tok.m_type = toktype.literal ∧ flags &&& lexflags.allow_multi_char_literals = 0 ∧
       1 < r.tok.m_string.length
    then ⟨false, r.tok, r.pos, r.line, r.derr + 1, r.dwarn⟩
    else r
  else r

/-- Character class of `internal_read_name_ident`'s `valid_name_char`. -/
def validNameChar (c : Nat) : Bool :=
  (97 ≤ c ∧ c ≤ 122) ∨ (65 ≤ c ∧ c ≤ 90) ∨ (48 ≤ c ∧ c ≤ 57) ∨ c = 95

/-- The do-while loop of `lexer::internal_read_name_ident`: the character at
the current position is appended unconditionally, then scanning continues
while the next character is a name character, a `-` under `only_strings`, or
a path character under `allow_path_names`. -/
def nameIdentLoop (buf : List Nat) (flags : Nat) : Nat → token → Nat → token × Nat
  | 0, tok, pos => (tok, pos)
  | fuel + 1, tok, pos =>
    let tok := tok.append_char (bAt buf pos)
    let pos := pos + 1
    let c := bAt buf pos
    if validNameChar c ∨ (flags &&& lexflags.only_strings ≠ 0 ∧ c = 45) ∨
       (flags &&& lexflags.allow_path_names ≠ 0 ∧ (c = 47 ∨ c = 92 ∨ c = 58 ∨ c = 46))
    then nameIdentLoop buf flags fuel tok pos
    else (tok, pos)

/-- Translation of `lexer::internal_read_name_ident` (always succeeds; the
texts `true` and `false` receive the boolean flag, everything else flag 0). -/
def internal_read_name_ident (buf : List Nat) (flags : Nat) (tok : token) (pos : Nat) :
    token × Nat :=
  let tok := tok.set_type toktype.identifier
  let r := nameIdentLoop buf flags (buf.length + 1) tok pos
  let tok2 :=
    if r.1.m_string = token.trueBytes ∨ r.1.m_string = token.falseBytes
    then r.1.set_flags tokflags.boolean
    else r.1.set_flags 0
  (tok2, r.2)

/-- Token/position pair for the number-scanning loops. -/
structure tp : Type where
  tok : token
  pos : Nat
deriving Repr

/-- Plain decimal-digit loop (`while ('0' <= c && c <= '9') append`). -/
def digitsLoop (buf : List Nat) : Nat → token → Nat → tp
  | 0, tok, pos => ⟨tok, pos⟩
  | fuel + 1, tok, pos =>
    let c := bAt buf pos
    if 48 ≤ c ∧ c ≤ 57 then digitsLoop buf fuel (tok.append_char c) (pos + 1)
    else ⟨tok, pos⟩

/-- Hex-digit loop of the `0x` branch. -/
def hexDigitsLoop (buf : List Nat) : Nat → token → Nat → tp
  | 0, tok, pos => ⟨tok, pos⟩
  | fuel + 1, tok, pos =>
    let c := bAt buf pos
    if (48 ≤ c ∧ c ≤ 57) ∨ (97 ≤ c ∧ c ≤ 102) ∨ (65 ≤ c ∧ c ≤ 70) then
      hexDigitsLoop buf fuel (tok.append_char c) (pos + 1)
    else ⟨tok, pos⟩

/-- Binary-digit loop of the `0b` branch. -/
def binDigitsLoop (buf : List Nat) : Nat → token → Nat → tp
  | 0, tok, pos => ⟨tok, pos⟩
  | fuel + 1, tok, pos =>
    let c := bAt buf pos
    if c = 48 ∨ c = 49 then binDigitsLoop buf fuel (tok.append_char c) (pos + 1)
    else ⟨tok, pos⟩

/-- Octal-digit loop (`'0'..'7'`). -/
def octDigitsLoop (buf : List Nat) : Nat → token → Nat → tp
  | 0, tok, pos => ⟨tok, pos⟩
  | fuel + 1, tok, pos =>
    let c := bAt buf pos
    if 48 ≤ c ∧ c ≤ 55 then octDigitsLoop buf fuel (tok.append_char c) (pos + 1)
    else ⟨tok, pos⟩

/-- Digit/dot counting loop of the decimal branch of
`internal_read_number` (digits and dots are appended, dots counted). -/
def digitDotLoop (buf : List Nat) : Nat → token → Nat → Nat → token × Nat × Nat
  | 0, tok, pos, dot => (tok, pos, dot)
  | fuel + 1, tok, pos, dot =>
    let c := bAt buf pos
    if 48 ≤ c ∧ c ≤ 57 then digitDotLoop buf fuel (tok.append_char c) (pos + 1) dot
    else if c = 46 then digitDotLoop buf fuel (tok.append_char c) (pos + 1) (dot + 1)
    else (tok, pos, dot)

/-- Exponent part of a float: append `e`, an optional sign, then digits. -/
def expPart (buf : List Nat) (tok : token) (pos : Nat) : tp :=
  let tok := tok.append_char 101
  let pos := pos + 1
  let step : token × Nat :=
    if bAt buf pos = 45 ∨ bAt buf pos = 43 then (tok.append_char (bAt buf pos), pos + 1)
    else (tok, pos)
  digitsLoop buf (buf.length + 1) step.1 step.2

/-- Append the character at the current position `n` times, advancing
(the `for (i = 0; i < c2; ++i) { append(c1); c1 = *(++p); }` loop of the
float-exception branch). -/
def appendNHere (buf : List Nat) : Nat → token → Nat → tp
  | 0, tok, pos => ⟨tok, pos⟩
  | n + 1, tok, pos => appendNHere buf n (tok.append_char (bAt buf pos)) (pos + 1)

/-- Translation of `lexer::internal_check_string`: compare the script at the
current position with the given text. -/
def internal_check_string (buf : List Nat) (pos : Nat) : List Nat → Bool
  | [] => true
  | c :: rest => bAt buf pos = c && internal_check_string buf (pos + 1) rest

/-- ASCII bytes of `INF`, `IND`, `NAN`, `QNAN`, `SNAN`. -/
def infBytes : List Nat := [73, 78, 70]
def indBytes : List Nat := [73, 78, 68]
def nanBytes : List Nat := [78, 65, 78]
def qnanBytes : List Nat := [81, 78, 65, 78]
def snanBytes : List Nat := [83, 78, 65, 78]

/-- Integer-suffix handling (`u|U|l|L`, at most two, unsigned wins), the
two-iteration `for` loop unrolled.  Returns the signedness flag and next
position. -/
def intSuffix (buf : List Nat) (pos : Nat) : Nat × Nat :=
  let c1 := bAt buf pos
  if 32 < c1 then
    if c1 = 117 ∨ c1 = 85 then
      let c2 := bAt buf (pos + 1)
      if c2 = 117 ∨ c2 = 85 then (tokflags.unsigned_integer, pos + 2)
      else if c2 = 108 ∨ c2 = 76 then (tokflags.unsigned_integer, pos + 2)
      else (tokflags.unsigned_integer, pos + 1)
    else if c1 = 108 ∨ c1 = 76 then
      let c2 := bAt buf (pos + 1)
      if c2 = 117 ∨ c2 = 85 then (tokflags.unsigned_integer, pos + 2)
      else if c2 = 108 ∨ c2 = 76 then (tokflags.signed_integer, pos + 2)
      else (tokflags.signed_integer, pos + 1)
    else (tokflags.signed_integer, pos)
  else (tokflags.signed_integer, pos)

/-- Float-suffix handling (`f|F` single, `l|L` extended, default double). -/
def floatSuffix (buf : List Nat) (pos : Nat) : Nat × Nat :=
  let c1 := bAt buf pos
  if 32 < c1 then
    if c1 = 102 ∨ c1 = 70 then (tokflags.single_precision, pos + 1)
    else if c1 = 108 ∨ c1 = 76 then (tokflags.extended_precision, pos + 1)
    else (tokflags.double_precision, pos)
  else (tokflags.double_precision, pos)

/-- Translation of `lexer::internal_read_number`.  Returns
`(token or error, next position, error increment)`.  The first phase scans
the representation (hex/binary/octal, or the decimal digit-dot run deciding
between integer, float — including the `1.#...` exception texts — and IPv4);
the second phase applies the suffix handling keyed on the accumulated flag
bits, then the single exit point sets the token type and flags. -/
def internal_read_number (buf : List Nat) (flags : Nat) (tok : token) (pos : Nat) :
    Option token × Nat × Nat :=
  let c1 := bAt buf pos
  let c2 := bAt buf (pos + 1)
  let scanned : (token × Nat × Nat) ⊕ (Nat × Nat) :=
    if c1 = 48 ∧ c2 ≠ 46 then
      if c2 = 120 ∨ c2 = 88 then
        let t := (tok.append_char c1).append_char c2
        let r := hexDigitsLoop buf (buf.length + 1) t (pos + 2)
        Sum.inl (r.tok, r.pos, tokflags.hexadecimal ||| tokflags.integer)
      else if c2 = 98 ∨ c2 = 66 then
        let t := (tok.append_char c1).append_char c2
        let r := binDigitsLoop buf (buf.length + 1) t (pos + 2)
        Sum.inl (r.tok, r.pos, tokflags.binary ||| tokflags.integer)
      else
        let t := tok.append_char c1
        let r := octDigitsLoop buf (buf.length + 1) t (pos + 1)
        Sum.inl (r.tok, r.pos, tokflags.octal ||| tokflags.integer)
    else
      match digitDotLoop buf (buf.length + 1) tok pos 0 with
      | (t, p, dot0) =>
        let dot := if bAt buf p = 101 ∧ dot0 = 0 then dot0 + 1 else dot0
        if dot = 1 then
          if bAt buf p = 101 then
            let e := expPart buf t p
            Sum.inl (e.tok, e.pos, tokflags.decimal ||| tokflags.floating_point)
          else if bAt buf p = 35 then
            -- NOTE: internal_check_string compares starting AT the '#', so
            -- none of these checks can succeed here; translated faithfully.
            let ck : Nat × Nat :=
              if internal_check_string buf p infBytes then (tokflags.infinite, 4)
              else if internal_check_string buf p indBytes then (tokflags.indefinite, 4)
              else if internal_check_string buf p nanBytes then (tokflags.nan, 4)
              else if internal_check_string buf p qnanBytes then (tokflags.nan, 5)
              else if internal_check_string buf p snanBytes then (tokflags.nan, 5)
              else (0, 4)
            let a := appendNHere buf ck.2 t p
            let g := digitsLoop buf (buf.length + 1) a.tok a.pos
            if flags &&& lexflags.allow_float_exceptions = 0 then Sum.inr (g.pos, 1)
            else Sum.inl (g.tok, g.pos, tokflags.decimal ||| tokflags.floating_point ||| ck.1)
          else Sum.inl (t, p, tokflags.decimal ||| tokflags.floating_point)
        else if 1 < dot then
          if flags &&& lexflags.allow_ip_addresses = 0 then Sum.inr (p, 1)
          else if dot ≠ 3 then Sum.inr (p, 1)
          else Sum.inl (t, p, tokflags.ip_address)
        else Sum.inl (t, p, tokflags.decimal ||| tokflags.integer)
  match scanned with
  | Sum.inr pe => (none, pe.1, pe.2)
  | Sum.inl (t, p, fl) =>
    if fl &&& tokflags.floating_point ≠ 0 then
      let s := floatSuffix buf p
      (some ((t.set_type toktype.number).set_flags (fl ||| s.1)), s.2, 0)
    else if fl &&& tokflags.integer ≠ 0 then
      let s := intSuffix buf p
      (some ((t.set_type toktype.number).set_flags (fl ||| s.1)), s.2, 0)
    else if fl &&& tokflags.ip_address ≠ 0 then
      if bAt buf p = 58 then
        let t2 := t.append_char 58
        let g := digitsLoop buf (buf.length + 1) t2 (p + 1)
        (some ((g.tok.set_type toktype.number).set_flags (fl ||| tokflags.ip_port)), g.pos, 0)
      else (some ((t.set_type toktype.number).set_flags fl), p, 0)
    else (some ((t.set_type toktype.number).set_flags fl), p, 0)

/-- A punctuation set together with its built lookup chains (the shared
`m_punctuations` / `m_punctuations_table` / `m_punctuations_next` state set
by `lexer::set_punctuation_tables`). -/
structure punctcfg : Type where
  defs   : List punctuation_def
  chains : Nat → List Nat

/-- Model of `lexer::set_punctuation_tables`: build the chains for a set. -/
def set_punctuation_tables (ps : List punctuation_def) : punctcfg :=
  ⟨ps, buildChains ps⟩

/-- Result of the scanning phase of `next_token` (everything after the
pushback check): token or failure, new position and line, the new
whitespace-end pointer when it was set, and the counter increments. -/
structure scanres : Type where
  res   : Option token
  pos   : Nat
  line  : Nat
  wsEnd : Option Nat
  derr  : Nat
  dwarn : Nat
deriving Repr

/-- Scanning phase of `lexer::next_token`: skip whitespace and comments,
build the cleared token with line info, then dispatch on the first character
and the flags (`only_strings` first, then number / string / identifier /
path-name / punctuation; an unmatched punctuation is an error). -/
def next_token_scan (cfg : punctcfg) (buf : List Nat) (flags : Nat)
    (pos line : Nat) : scanres :=
  match internal_read_whitespace buf pos line with
  | (false, p, l, dw) => ⟨none, p, l, none, 0, dw⟩
  | (true, p, l, dw) =>
    let tok0 := ((token.clear {}).set_line_number l).set_lines_crossed (l - line)
    let c := bAt buf p
    if flags &&& lexflags.only_strings ≠ 0 then
      if c = 39 ∨ c = 34 then
        let r := internal_read_string buf flags c tok0 p l
        ⟨if r.ok then some r.tok else none, r.pos, r.line, some p, r.derr, dw + r.dwarn⟩
      else
        let r := internal_read_name_ident buf flags tok0 p
        ⟨some r.1, r.2, l, some p, 0, dw⟩
    else if (48 ≤ c ∧ c ≤ 57) ∨
            (c = 46 ∧ 48 ≤ bAt buf (p + 1) ∧ bAt buf (p + 1) ≤ 57) then
      match internal_read_number buf flags tok0 p with
      | (none, p2, de) => ⟨none, p2, l, some p, de, dw⟩
      | (some t, p2, de) =>
        if flags &&& lexflags.allow_number_names ≠ 0 then
          let c2 := bAt buf p2
          if (97 ≤ c2 ∧ c2 ≤ 122) ∨ (65 ≤ c2 ∧ c2 ≤ 90) ∨ c2 = 95 then
            let r := internal_read_name_ident buf flags t p2
            ⟨some r.1, r.2, l, some p, de, dw⟩
          else ⟨some t, p2, l, some p, de, dw⟩
        else ⟨some t, p2, l, some p, de, dw⟩
    else if c = 39 ∨ c = 34 then
      let r := internal_read_string buf flags c tok0 p l
      ⟨if r.ok then some r.tok else none, r.pos, r.line, some p, r.derr, dw + r.dwarn⟩
    else if (97 ≤ c ∧ c ≤ 122) ∨ (65 ≤ c ∧ c ≤ 90) ∨ c = 95 then
      let r := internal_read_name_ident buf flags tok0 p
      ⟨some r.1, r.2, l, some p, 0, dw⟩
    else if flags &&& lexflags.allow_path_names ≠ 0 ∧ (c = 47 ∨ c = 92 ∨ c = 46) then
      let r := internal_read_name_ident buf flags tok0 p
      ⟨some r.1, r.2, l, some p, 0, dw⟩
    else
      match internal_read_punctuation cfg.defs cfg.chains buf p tok0 with
      | some tn => ⟨some tn.1, tn.2, l, some p, 0, dw⟩
      | none => ⟨none, p, l, some p, 1, dw⟩

/-- The `lexer` instance state (the fields of the C++ class that the claims
touch; pointers become offsets into `m_buffer`). -/
structure lexstate : Type where
  m_buffer          : List Nat := []
  m_flags           : Nat     := 0
  m_pos             : Nat     := 0
  m_line_num        : Nat     := 0
  m_last_pos        : Nat     := 0
  m_last_line_num   : Nat     := 0
  m_ws_start        : Nat     := 0
  m_ws_end          : Nat     := 0
  m_error_count     : Nat     := 0
  m_warn_count      : Nat     := 0
  m_leftover_token  : token   := {}
  m_token_available : Bool    := false
  m_initialized     : Bool    := false
deriving DecidableEq, Repr, Inhabited

/-- Model of a fresh `lexer::init_from_memory` on an unused instance
(starting line 1, buffer borrowed, not owned). -/
def init_from_memory (buf : List Nat) (flags : Nat) : lexstate :=
  { m_buffer := buf, m_flags := flags, m_pos := 0, m_line_num := 1,
    m_last_pos := 0, m_last_line_num := 1, m_ws_start := 0, m_ws_end := 0,
    m_error_count := 0, m_warn_count := 0, m_leftover_token := token.clear {},
    m_token_available := false, m_initialized := true }

/-- Translation of `lexer::error`: the counter is bumped unconditionally,
before the `no_errors` suppression check (which only gates the callback). -/
def lex_error (st : lexstate) : lexstate :=
  { st with m_error_count := st.m_error_count + 1 }

/-- Translation of `lexer::warning`: the counter is bumped unconditionally,
before the `no_warnings` suppression check. -/
def lex_warning (st : lexstate) : lexstate :=
  { st with m_warn_count := st.m_warn_count + 1 }

/-- Translation of `lexer::next_token`: uninitialized is an error; a pending
pushback token is returned (and moved out of) first; otherwise the last
position/line are snapshotted and the scanning phase runs. -/
def next_token (cfg : punctcfg) (st : lexstate) : Option token × lexstate :=
  if st.m_initialized = false then (none, lex_error st)
  else if st.m_token_available = true then
    (some st.m_leftover_token,
     { st with m_token_available := false, m_leftover_token := token.clear {} })
  else
    let r := next_token_scan cfg st.m_buffer st.m_flags st.m_pos st.m_line_num
    (r.res,
     { st with
        m_pos := r.pos, m_line_num := r.line,
        m_last_pos := st.m_pos, m_last_line_num := st.m_line_num,
        m_ws_start := st.m_pos, m_ws_end := r.wsEnd.getD st.m_ws_end,
        m_error_count := st.m_error_count + r.derr,
        m_warn_count := st.m_warn_count + r.dwarn })

/-- Translation of `lexer::check_token_string`: read a token; on a mismatch
restore the position and line from the pre-read snapshot (there is no
restore when no token could be read at all). -/
def check_token_string (cfg : punctcfg) (s : List Nat) (st : lexstate) : Bool × lexstate :=
  match next_token cfg st with
  | (none, st1) => (false, st1)
  | (some tok, st1) =>
    if tok.m_string = s then (true, st1)
    else (false, { st1 with m_pos := st1.m_last_pos, m_line_num := st1.m_last_line_num })

/-- Translation of `lexer::check_token_type` (subtype flags must all be
present; mismatch rewinds). -/
def check_token_type (cfg : punctcfg) (ty : toktype) (subtype : Nat) (st : lexstate) :
    Option token × lexstate :=
  match next_token cfg st with
  | (none, st1) => (none, st1)
  | (some tok, st1) =>
    if tok.m_type = ty ∧ tok.m_flags &&& subtype = subtype then (some tok, st1)
    else (none, { st1 with m_pos := st1.m_last_pos, m_line_num := st1.m_last_line_num })

/-- Translation of `lexer::peek_token_string`: read a token, always rewind,
then report whether it matched. -/
def peek_token_string (cfg : punctcfg) (s : List Nat) (st : lexstate) : Bool × lexstate :=
  match next_token cfg st with
  | (none, st1) => (false, st1)
  | (some tok, st1) =>
    (tok.m_string = s, { st1 with m_pos := st1.m_last_pos, m_line_num := st1.m_last_line_num })

/-- Translation of `lexer::peek_token_type`. -/
def peek_token_type (cfg : punctcfg) (ty : toktype) (subtype : Nat) (st : lexstate) :
    Option token × lexstate :=
  match next_token cfg st with
  | (none, st1) => (none, st1)
  | (some tok, st1) =>
    let st2 := { st1 with m_pos := st1.m_last_pos, m_line_num := st1.m_last_line_num }
    if tok.m_type = ty ∧ tok.m_flags &&& subtype = subtype then (some tok, st2)
    else (none, st2)

/-- Translation of `lexer::unget_token`: a second unget in a row warns and
overwrites; the slot is filled and marked available. -/
def unget_token (tok : token) (st : lexstate) : lexstate :=
  let st := if st.m_token_available = true then lex_warning st else st
  { st with m_leftover_token := tok, m_token_available := true }

/-- Translation of `lexer::reset`: rewind to the origin; this also zeroes
the error and warning counters. -/
def reset (st : lexstate) : lexstate :=
  { st with m_pos := 0, m_last_pos := 0, m_ws_start := 0, m_ws_end := 0,
            m_last_line_num := 1, m_line_num := 1, m_error_count := 0,
            m_warn_count := 0, m_token_available := false,
            m_leftover_token := token.clear {} }

/-- Translation of `lexer::clear` (`free_script_source` plus zeroing the
counters; the flags survive). -/
def lex_clear (st : lexstate) : lexstate :=
  { st with m_buffer := [], m_pos := 0, m_last_pos := 0, m_ws_start := 0,
            m_ws_end := 0, m_last_line_num := 0, m_line_num := 0,
            m_error_count := 0, m_warn_count := 0, m_token_available := false,
            m_initialized := false, m_leftover_token := token.clear {} }

/-- The lexer operations quantified over by the counter-monotonicity claim. -/
inductive lexop : Type where
  | op_next_token
  | op_check_token_string (s : List Nat)
  | op_check_token_type (ty : toktype) (sub : Nat)
  | op_peek_token_string (s : List Nat)
  | op_peek_token_type (ty : toktype) (sub : Nat)
  | op_unget_token (t : token)
  | op_error
  | op_warning
  | op_reset
  | op_clear
deriving DecidableEq

/-- State effect of one lexer operation. -/
def applyOp (cfg : punctcfg) (o : lexop) (st : lexstate) : lexstate :=
  match o with
  | lexop.op_next_token => (next_token cfg st).2
  | lexop.op_check_token_string s => (check_token_string cfg s st).2
  | lexop.op_check_token_type ty sub => (check_token_type cfg ty sub st).2
  | lexop.op_peek_token_string s => (peek_token_string cfg s st).2
  | lexop.op_peek_token_type ty sub => (peek_token_type cfg ty sub st).2
  | lexop.op_unget_token t => unget_token t st
  | lexop.op_error => lex_error st
  | lexop.op_warning => lex_warning st
  | lexop.op_reset => reset st
  | lexop.op_clear => lex_clear st

/-- The default C/C++ punctuation set of `lexer::default_punctuations`
(index = enumerator value; texts as ASCII bytes, in source order). -/
def default_punctuations : List punctuation_def :=
  [ ⟨none, 0⟩,                     -- none
    ⟨some [61], 1⟩,                -- =
    ⟨some [43], 2⟩,                -- +
    ⟨some [45], 3⟩,                -- -
    ⟨some [42], 4⟩,                -- *
    ⟨some [47], 5⟩,                -- /
    ⟨some [37], 6⟩,                -- %
    ⟨some [62, 62], 7⟩,            -- >>
    ⟨some [60, 60], 8⟩,            -- <<
    ⟨some [43, 61], 9⟩,            -- +=
    ⟨some [45, 61], 10⟩,           -- -=
    ⟨some [42, 61], 11⟩,           -- *=
    ⟨some [47, 61], 12⟩,           -- /=
    ⟨some [37, 61], 13⟩,           -- %=
    ⟨some [62, 62, 61], 14⟩,       -- >>=
    ⟨some [60, 60, 61], 15⟩,       -- <<=
    ⟨some [38, 38], 16⟩,           -- &&
    ⟨some [124, 124], 17⟩,         -- ||
    ⟨some [33], 18⟩,               -- !
    ⟨some [61, 61], 19⟩,           -- ==
    ⟨some [33, 61], 20⟩,           -- !=
    ⟨some [62], 21⟩,               -- >
    ⟨some [60], 22⟩,               -- <
    ⟨some [62, 61], 23⟩,           -- >=
    ⟨some [60, 61], 24⟩,           -- <=
    ⟨some [43, 43], 25⟩,           -- ++
    ⟨some [45, 45], 26⟩,           -- --
    ⟨some [38], 27⟩,               -- &
    ⟨some [124], 28⟩,              -- |
    ⟨some [94], 29⟩,               -- ^
    ⟨some [126], 30⟩,              -- ~
    ⟨some [38, 61], 31⟩,           -- &=
    ⟨some [124, 61], 32⟩,          -- |=
    ⟨some [94, 61], 33⟩,           -- ^=
    ⟨some [46], 34⟩,               -- .
    ⟨some [45, 62], 35⟩,           -- ->
    ⟨some [58, 58], 36⟩,           -- ::
    ⟨some [46, 42], 37⟩,           -- .*
    ⟨some [44], 38⟩,               -- ,
    ⟨some [59], 39⟩,               -- ;
    ⟨some [58], 40⟩,               -- :
    ⟨some [63], 41⟩,               -- ?
    ⟨some [46, 46, 46], 42⟩,       -- ...
    ⟨some [92], 43⟩,               -- backslash
    ⟨some [40], 44⟩,               -- (
    ⟨some [41], 45⟩,               -- )
    ⟨some [91], 46⟩,               -- [
    ⟨some [93], 47⟩,               -- ]
    ⟨some [123], 48⟩,              -- open curly
    ⟨some [125], 49⟩,              -- close curly
    ⟨some [35], 50⟩,               -- #
    ⟨some [35, 35], 51⟩,           -- ##
    ⟨some [36], 52⟩ ]              -- dollar

/-- The default punctuation configuration
(`lexer::set_default_punctuation_tables`). -/
def default_cfg : punctcfg := set_punctuation_tables default_punctuations

/-- State effect of a `token::get_value_*` call (the C++ accessors update
the `mutable` cache in place when it is invalid). -/
def tok_query (t : token) : token :=
  if ¬ (t.is_number = true) ∧ ¬ (t.is_boolean = true) then t
  else if t.m_values_valid = false then t.update_cached_values
  else t

/-- The token operations quantified over by the cache-invariant claim. -/
inductive tokop : Type where
  | t_set_string (s : List Nat)
  | t_set_flags (f : Nat)
  | t_set_line_number (n : Nat)
  | t_set_lines_crossed (n : Nat)
  | t_set_type (ty : toktype)
  | t_append_char (c : Nat)
  | t_append_str (s : List Nat)
  | t_clear
  | t_query

/-- State effect of one token operation. -/
def applyTokOp (o : tokop) (t : token) : token :=
  match o with
  | tokop.t_set_string s => t.set_string s
  | tokop.t_set_flags f => t.set_flags f
  | tokop.t_set_line_number n => t.set_line_number n
  | tokop.t_set_lines_crossed n => t.set_lines_crossed n
  | tokop.t_set_type ty => t.set_type ty
  | tokop.t_append_char c => t.append_char c
  | tokop.t_append_str s => t.append_str s
  | tokop.t_clear => t.clear
  | tokop.t_query => tok_query t

/-- A token reached from a starting token by a sequence of operations. -/
def tokenOpsFold (ops : List tokop) (t : token) : token :=
  ops.foldl (fun t o => applyTokOp o t) t

/-- Cache consistency: whenever the valid bit is set, the cached values
agree with a recomputation from the current text and flags. -/
def cache_consistent (t : token) : Prop :=
  t.m_values_valid = true →
    t.m_u64_value = (t.update_cached_values).m_u64_value ∧
    t.m_double_value = (t.update_cached_values).m_double_value

/-- Pure decimal value of a digit string (used to state escape/IP claims). -/
def decVal (ds : List Nat) : Nat := ds.foldl (fun v c => v * 10 + (c - 48)) 0

/-- Value of a standard hexadecimal digit (`0-9`, `A-F`, `a-f`). -/
def hexDigitNat (c : Nat) : Nat :=
  if 48 ≤ c ∧ c ≤ 57 then c - 48
  else if 65 ≤ c ∧ c ≤ 70 then c - 55
  else if 97 ≤ c ∧ c ≤ 102 then c - 87
  else 0

/-- Pure hexadecimal value of a standard hex-digit string. -/
def hexVal (hs : List Nat) : Nat := hs.foldl (fun v c => v * 16 + hexDigitNat c) 0

/-- Truncation toward zero of a double value (integer result for finite
values, nothing for the exception values). -/
def dval_trunc : double_val → Option ℤ
  | double_val.finite q => some (ratTruncZ q)
  | _ => none

/-- The text `s` occurs in the buffer at position `pos` (reading through the
NUL-sentinel convention); this is what "both punctuators could match at that
position" means for NUL-free punctuator texts. -/
def isPrefixAt (s : List Nat) (buf : List Nat) (pos : Nat) : Prop :=
  ∀ j, j < s.length → bAt buf (pos + j) = s.getD j 0

/-- Chain ordering stated by the spec: an earlier chain entry is strictly
longer, or of equal length and defined earlier. -/
def chainBefore (ps : List punctuation_def) (a b : Nat) : Prop :=
  pstrlen ps b < pstrlen ps a ∨ (pstrlen ps a = pstrlen ps b ∧ a < b)

/-- The `std::uint32_t` decimal accumulation of one IP octet/port segment
(cell loop of `update_cached_values`). -/
def cellFold (ds : List Nat) (v : Nat) : Nat :=
  List.foldl (fun (a : Nat) (c : Nat) => token.u32of ((a : ℤ) * 10 + ((c : ℤ) - 48))) v ds

/-- ASCII bytes of `9223372036854775808` (`2^63`), the C3 counterexample. -/
def c3_input : List Nat := [57, 50, 50, 51, 51, 55, 50, 48, 51, 54, 56, 53, 52, 55, 55, 53, 56, 48, 56]

/-- The number token the scanner produces for `2^63`. -/
def c3_tok : token := ((next_token default_cfg (init_from_memory c3_input 0)).1).getD {}

/-- The token produced by `internal_read_number` on the text `42`
(witness input for the amended C3). -/
def c3_wit_tok : token := ((internal_read_number [52, 50] 0 {} 0).1).getD {}

/-- An arbitrary token sitting in the pushback slot for the C8
counterexample (text `z`). -/
def c8_ztok : token := { m_string := [122], m_type := toktype.identifier, m_values_valid := false }

/-- Lexer over the buffer `a` with the token `z` pushed back. -/
def c8_st0 : lexstate := unget_token c8_ztok (init_from_memory [97] 0)

/-- ASCII bytes of `/**//**/` (two adjacent block comments), the C9
failing input. -/
def c9_input : List Nat := [47, 42, 42, 47, 47, 42, 42, 47]

/-- ASCII bytes of a quoted `"hi"` (C2 failing input). -/
def c2_quoted_input : List Nat := [34, 104, 105, 34]

/-- ASCII bytes of `a%b`, a whitespace-delimited run with an inner special
character (C2 failing input). -/
def c2_run_input : List Nat := [97, 37, 98]

/-- The result of `next_token` on the buffer `a` from a fresh lexer
(witness input for the amended C8). -/
def c8_wit_res : Option token × lexstate := next_token default_cfg (init_from_memory [97] 0)

/-!  Theorems.  Everything below is a theorem; no further definitions. -/

/-- C10: `token::operator!=(char)` returns true exactly for one-character
tokens whose character differs, so for any token whose text length is not 1
both `==(char)` and `!=(char)` return false: the two operators are not
logical complements. -/
theorem C10_char_compare_not_complementary :
    (∀ (t : token) (c : Nat),
       t.neq_char c = true ↔ (t.m_string.length = 1 ∧ t.m_string.getD 0 0 ≠ c)) ∧
    (∀ (t : token) (c : Nat), t.m_string.length ≠ 1 →
       t.eq_char c = false ∧ t.neq_char c = false) := by
  constructor
  · intro t c
    simp [token.neq_char]
  · intro t c h
    constructor <;> simp [token.eq_char, token.neq_char, h]

/-- Witness for C10 at the empty token and the character `a`. -/
theorem C10_witness :
    ({} : token).eq_char 97 = false ∧ ({} : token).neq_char 97 = false :=
  C10_char_compare_not_complementary.2 {} 97 (by decide)

/-- C2 (actual code behaviour at the failing inputs): in `only_strings`
mode the quoted input `"hi"` comes back with the quotes STRIPPED (contrary
to the flag's own doc comment "quoted strings keep quotes"), and the
unquoted run `a%b` is split at `%` and typed `identifier`, not `string`. -/
theorem C2_only_strings_actual_behavior :
    (next_token default_cfg (init_from_memory c2_quoted_input lexflags.only_strings)).1 =
      some { m_string := [104, 105], m_flags := 0, m_line_num := 1, m_lines_crossed := 0,
             m_type := toktype.string, m_values_valid := false, m_u64_value := 0,
             m_double_value := double_val.finite 0 } ∧
    (next_token default_cfg (init_from_memory c2_run_input lexflags.only_strings)).1 =
      some { m_string := [97], m_flags := 0, m_line_num := 1, m_lines_crossed := 0,
             m_type := toktype.identifier, m_values_valid := false, m_u64_value := 0,
             m_double_value := double_val.finite 0 } :=
  ⟨rfl, rfl⟩

/-- C9 (actual code behaviour): on the comment-only input `/**//**/` the
double step-over after `*/` in `internal_read_whitespace` leaves the scanner
inside the second comment, and `next_token` returns a `*` punctuation token
instead of "no token".  The empty-buffer and whitespace-only parts of the
claim do hold (no token, no error). -/
theorem C9_comment_only_eval :
    (next_token default_cfg (init_from_memory c9_input 0)).1 =
      some { m_string := [42], m_flags := 4, m_line_num := 1, m_lines_crossed := 0,
             m_type := toktype.punctuation, m_values_valid := false, m_u64_value := 0,
             m_double_value := double_val.finite 0 } ∧
    (next_token default_cfg (init_from_memory c9_input 0)).2.m_error_count = 0 ∧
    (next_token default_cfg (init_from_memory [] 0)).1 = none ∧
    (next_token default_cfg (init_from_memory [] 0)).2.m_error_count = 0 ∧
    (next_token default_cfg (init_from_memory [32, 10, 32] 0)).1 = none ∧
    (next_token default_cfg (init_from_memory [32, 10, 32] 0)).2.m_error_count = 0 :=
  ⟨rfl, rfl, rfl, rfl, rfl, rfl⟩

set_option maxRecDepth 10000 in
/-- C3 (counterexample): the scanner-produced decimal integer token for
`9223372036854775808` (`2^63`) is a number token, not an IP address and not
a float exception, yet `as_int64` yields `-2^63` while the truncation of
`as_double` is `+2^63`. -/
theorem C3_counterexample :
    c3_tok.m_type = toktype.number ∧
    c3_tok.m_flags &&& tokflags.ip_address = 0 ∧
    c3_tok.m_flags &&& (tokflags.infinite ||| tokflags.indefinite ||| tokflags.nan) = 0 ∧
    c3_tok.as_double = double_val.finite ((9223372036854775808 : ℚ)) ∧
    dval_trunc c3_tok.as_double = some ((9223372036854775808 : ℤ)) ∧
    c3_tok.as_int64 = -(9223372036854775808 : ℤ) ∧
    some c3_tok.as_int64 ≠ dval_trunc c3_tok.as_double := by
  decide

/-- Specification of the structural floor-log2. -/
theorem floorLog2Aux_spec :
    ∀ (fuel n : Nat), 1 ≤ n → n < 2 ^ fuel →
      2 ^ floorLog2Aux fuel n ≤ n ∧ n < 2 ^ (floorLog2Aux fuel n + 1) := by
  intro fuel
  induction fuel with
  | zero =>
      intro n h1 h2
      simp at h2
      omega
  | succ f ih =>
      intro n h1 h2
      unfold floorLog2Aux
      by_cases hn : 2 ≤ n
      · rw [if_pos hn]
        have hh1 : 1 ≤ n / 2 := (Nat.one_le_div_iff (by norm_num)).mpr hn
        have hh2 : n / 2 < 2 ^ f := by
          rw [Nat.div_lt_iff_lt_mul (by norm_num : 0 < 2)]
          calc n < 2 ^ (f + 1) := h2
          _ = 2 ^ f * 2 := by ring
        obtain ⟨l, r⟩ := ih (n / 2) hh1 hh2
        constructor
        · calc 2 ^ (floorLog2Aux f (n / 2) + 1) = 2 ^ floorLog2Aux f (n / 2) * 2 := by ring
          _ ≤ n / 2 * 2 := Nat.mul_le_mul_right 2 l
          _ ≤ n := Nat.div_mul_le_self n 2
        · have hb : n < (n / 2 + 1) * 2 := by omega
          calc n < (n / 2 + 1) * 2 := hb
          _ ≤ 2 ^ (floorLog2Aux f (n / 2) + 1) * 2 := Nat.mul_le_mul_right 2 (Nat.succ_le_of_lt r)
          _ = 2 ^ (floorLog2Aux f (n / 2) + 1 + 1) := (pow_succ 2 _).symm
      · rw [if_neg hn]
        constructor
        · simpa using h1
        · have : n < 2 := by omega
          simpa using this
/-- Floor-log2 bounds for `uint64`-range inputs. -/
theorem floorLog2_spec (n : Nat) (h1 : 1 ≤ n) (h2 : n < 2 ^ 64) :
    2 ^ floorLog2 n ≤ n ∧ n < 2 ^ (floorLog2 n + 1) :=
  floorLog2Aux_spec 64 n h1 h2

/-- Small integers convert to double exactly. -/
theorem rnDouble_of_le (n : Nat) (h : n ≤ 2 ^ 53) : rnDouble n = n := by
  unfold rnDouble
  rw [if_pos h]

/-- Conversion of a large `uint64` to double never drops below `2^53`. -/
theorem rnDouble_ge (n : Nat) (hgt : 2 ^ 53 < n) (h64 : n < 2 ^ 64) :
    2 ^ 53 ≤ rnDouble n := by
  have hspec := floorLog2_spec n (by omega) h64
  obtain ⟨hl, hr⟩ := hspec
  have he53 : 53 ≤ floorLog2 n := by
    by_contra hlt
    push_neg at hlt
    have : n < 2 ^ 53 :=
      lt_of_lt_of_le hr (Nat.pow_le_pow_right (by norm_num) (by omega))
    omega
  have h1 : 2 ^ floorLog2 n = 2 ^ 52 * 2 ^ (floorLog2 n - 52) := by
    rw [← pow_add]
    congr 1
    omega
  have h3 : 2 ^ 52 ≤ n / 2 ^ (floorLog2 n - 52) := by
    rw [Nat.le_div_iff_mul_le (Nat.pos_pow_of_pos _ (by norm_num))]
    calc 2 ^ 52 * 2 ^ (floorLog2 n - 52) = 2 ^ floorLog2 n := h1.symm
    _ ≤ n := hl
  have hlo : 2 ^ 53 ≤ n / 2 ^ (floorLog2 n - 52) * 2 ^ (floorLog2 n - 52) := by
    calc 2 ^ 53 ≤ 2 ^ floorLog2 n := Nat.pow_le_pow_right (by norm_num) he53
    _ = 2 ^ 52 * 2 ^ (floorLog2 n - 52) := h1
    _ ≤ n / 2 ^ (floorLog2 n - 52) * 2 ^ (floorLog2 n - 52) :=
        Nat.mul_le_mul_right _ h3
  simp only [rnDouble]
  rw [if_neg (by omega)]
  split_ifs
  · exact hlo
  · exact le_trans hlo (Nat.le_add_right _ _)
  · exact hlo
  · exact le_trans hlo (Nat.le_add_right _ _)

/-- `uint64` conversions stay below `2^64`. -/
theorem u64of_lt (z : ℤ) : token.u64of z < 2 ^ 64 := by
  unfold token.u64of
  have h1 : 0 ≤ z.emod (2 ^ 64) := Int.emod_nonneg z (by norm_num)
  have h2 : z.emod (2 ^ 64) < 2 ^ 64 := Int.emod_lt_of_pos z (by norm_num)
  omega

/-- `uint32` conversions stay below `2^32`. -/
theorem u32of_lt (z : ℤ) : token.u32of z < 2 ^ 32 := by
  unfold token.u32of
  have h1 : 0 ≤ z.emod (2 ^ 32) := Int.emod_nonneg z (by norm_num)
  have h2 : z.emod (2 ^ 32) < 2 ^ 32 := Int.emod_lt_of_pos z (by norm_num)
  omega

/-- The decimal parsing loop keeps the value in `uint64` range. -/
theorem parseDecU64_lt : ∀ (ds : List Nat) (v : Nat), v < 2 ^ 64 →
    token.parseDecU64 ds v < 2 ^ 64 := by
  intro ds
  induction ds with
  | nil => intro v h; exact h
  | cons c rest ih => intro v _; exact ih _ (u64of_lt _)

/-- The octal parsing loop keeps the value in `uint64` range. -/
theorem parseOctU64_lt : ∀ (ds : List Nat) (v : Nat), v < 2 ^ 64 →
    token.parseOctU64 ds v < 2 ^ 64 := by
  intro ds
  induction ds with
  | nil => intro v h; exact h
  | cons c rest ih => intro v _; exact ih _ (u64of_lt _)

/-- The hexadecimal parsing loop keeps the value in `uint64` range. -/
theorem parseHexU64_lt : ∀ (ds : List Nat) (v : Nat), v < 2 ^ 64 →
    token.parseHexU64 ds v < 2 ^ 64 := by
  intro ds
  induction ds with
  | nil => intro v h; exact h
  | cons c rest ih => intro v _; exact ih _ (u64of_lt _)

/-- The binary parsing loop keeps the value in `uint64` range. -/
theorem parseBinU64_lt : ∀ (ds : List Nat) (v : Nat), v < 2 ^ 64 →
    token.parseBinU64 ds v < 2 ^ 64 := by
  intro ds
  induction ds with
  | nil => intro v h; exact h
  | cons c rest ih => intro v _; exact ih _ (u64of_lt _)

/-- All IP cells stay in `uint32` range. -/
theorem parseIpCells_lt :
    ∀ (text : List Nat) (i : Nat) (ip : Nat → Nat), (∀ j, ip j < 2 ^ 32) →
      ∀ j, token.parseIpCells text i ip j < 2 ^ 32 := by
  intro text
  induction text with
  | nil => intro i ip h j; exact h j
  | cons c rest ih =>
      intro i ip h j
      unfold token.parseIpCells
      by_cases hc : c = 46 ∨ c = 58
      · rw [if_pos hc]
        exact ih _ _ h j
      · rw [if_neg hc]
        refine ih _ _ ?_ j
        intro j2
        by_cases hj : j2 = i
        · simp only [if_pos hj]
          exact u32of_lt _
        · simp only [if_neg hj]
          exact h j2

/-- For any token whose flags have no floating-point bit,
`update_cached_values` computes a `uint64` value `v` and the double value
`rnDouble v` (the `new_double_val = new_u64_val` conversion). -/
theorem update_shape_nonfloat (t : token)
    (h : t.m_flags &&& tokflags.floating_point = 0) :
    ∃ v : Nat, v < 2 ^ 64 ∧ (t.update_cached_values).m_u64_value = v ∧
      (t.update_cached_values).m_double_value = double_val.finite ((rnDouble v : Nat) : ℚ) := by
  unfold token.update_cached_values
  rw [if_neg (fun hx => hx h)]
  split_ifs with h1 h2 h3 h4 h5 h6 h7
  · exact ⟨token.parseDecU64 t.m_string 0, parseDecU64_lt _ _ (by norm_num), rfl, rfl⟩
  · exact ⟨token.parseOctU64 (t.m_string.drop 1) 0, parseOctU64_lt _ _ (by norm_num), rfl, rfl⟩
  · exact ⟨token.parseHexU64 (t.m_string.drop 2) 0, parseHexU64_lt _ _ (by norm_num), rfl, rfl⟩
  · exact ⟨token.parseBinU64 (t.m_string.drop 2) 0, parseBinU64_lt _ _ (by norm_num), rfl, rfl⟩
  · refine ⟨_, ?_, rfl, rfl⟩
    have hcell : ∀ j, token.parseIpCells t.m_string 0 (fun _ => 0) j < 2 ^ 32 :=
      parseIpCells_lt t.m_string 0 (fun _ => 0) (fun _ => by norm_num)
    have hword :
        (token.parseIpCells t.m_string 0 (fun _ => 0) 0 <<< 24) % 2 ^ 32 |||
          (token.parseIpCells t.m_string 0 (fun _ => 0) 1 <<< 16) % 2 ^ 32 |||
          (token.parseIpCells t.m_string 0 (fun _ => 0) 2 <<< 8) % 2 ^ 32 |||
          token.parseIpCells t.m_string 0 (fun _ => 0) 3 < 2 ^ 64 := by
      have hb : ∀ x : Nat, x % 2 ^ 32 < 2 ^ 64 := fun x =>
        lt_of_lt_of_le (Nat.mod_lt _ (by norm_num)) (by norm_num)
      exact Nat.or_lt_two_pow
        (Nat.or_lt_two_pow (Nat.or_lt_two_pow (hb _) (hb _)) (hb _))
        (lt_trans (hcell 3) (by norm_num))
    have hport : token.parseIpCells t.m_string 0 (fun _ => 0) 4 <<< 32 < 2 ^ 64 := by
      rw [Nat.shiftLeft_eq]
      calc token.parseIpCells t.m_string 0 (fun _ => 0) 4 * 2 ^ 32
          < 2 ^ 32 * 2 ^ 32 :=
            Nat.mul_lt_mul_of_lt_of_le (hcell 4) (le_refl _) (by norm_num)
      _ = 2 ^ 64 := by norm_num
    exact Nat.or_lt_two_pow hport hword
  · exact ⟨1, by norm_num, rfl, rfl⟩
  · exact ⟨0, by norm_num, rfl, rfl⟩
  · exact ⟨0, by norm_num, rfl, by norm_num [rnDouble]⟩

/-- For a floating-point token without exception bits,
`update_cached_values` parses the text and truncates it into the cache. -/
theorem update_shape_float (t : token)
    (h : t.m_flags &&& tokflags.floating_point ≠ 0)
    (hexc : t.m_flags &&& (tokflags.infinite ||| tokflags.indefinite ||| tokflags.nan) = 0) :
    (t.update_cached_values).m_double_value =
      double_val.finite (token.parseFloatText t.m_string) ∧
    (t.update_cached_values).m_u64_value =
      dvalToU64 (double_val.finite (token.parseFloatText t.m_string)) := by
  unfold token.update_cached_values
  rw [if_pos h, if_neg (fun hx => hx hexc)]
  exact ⟨rfl, rfl⟩

/-- A successful `internal_read_number` produces a number token with an
invalid value cache (the final `set_type`/`set_flags` pair). -/
theorem irn_basic {buf : List Nat} {flags : Nat} {t0 t : token} {pos p2 de : Nat}
    (h : internal_read_number buf flags t0 pos = (some t, p2, de)) :
    t.m_values_valid = false ∧ t.m_type = toktype.number := by
  simp only [internal_read_number] at h
  split at h
  · simp at h
  · split_ifs at h <;>
      (simp only [Prod.mk.injEq, Option.some.injEq] at h
       obtain ⟨h1, -, -⟩ := h
       rw [← h1]
       exact ⟨rfl, rfl⟩)

/-- Truncation toward zero agrees with the floor on non-negative
rationals. -/
theorem ratTruncZ_eq_floor (q : ℚ) (h : 0 ≤ q) : ratTruncZ q = ⌊q⌋ := by
  unfold ratTruncZ
  rw [Int.tdiv_eq_ediv (Rat.num_nonneg.mpr h) (Int.natCast_nonneg _)]
  exact Rat.floor_def.symm

/-- Truncation of a natural number cast is the number itself. -/
theorem ratTruncZ_natCast (n : Nat) : ratTruncZ ((n : Nat) : ℚ) = (n : ℤ) := by
  unfold ratTruncZ
  simp

/-- C3 (amended): for every token produced by `internal_read_number` that is
not an IP address and has no float-exception flag, `as_int64` equals the
truncation toward zero of `as_double` PROVIDED the double value lies in
`[0, 2^53)`; at and beyond `2^63` the signed reinterpretation in `as_int64`
breaks the equality (see the counterexample), and between `2^53` and `2^63`
the `uint64`-to-double rounding can break it for integer tokens. -/
theorem C3_amended (buf : List Nat) (flags : Nat) (t0 t : token) (pos p2 de : Nat) (q : ℚ)
    (h : internal_read_number buf flags t0 pos = (some t, p2, de))
    (hip : t.m_flags &&& tokflags.ip_address = 0)
    (hexc : t.m_flags &&& (tokflags.infinite ||| tokflags.indefinite ||| tokflags.nan) = 0)
    (hd : t.as_double = double_val.finite q)
    (hq0 : 0 ≤ q) (hq53 : q < 2 ^ 53) :
    t.as_int64 = ratTruncZ q := by
  obtain ⟨hv, hty⟩ := irn_basic h
  have hcond : ¬ (¬ (t.is_number = true) ∧ ¬ (t.is_boolean = true)) := by
    intro hx
    exact hx.1 (by simp [token.is_number, hty])
  have hgd : token.get_value_double t = (t.update_cached_values).m_double_value := by
    unfold token.get_value_double
    rw [if_neg hcond, if_pos hv]
  have hgu : token.get_value_u64 t = (t.update_cached_values).m_u64_value := by
    unfold token.get_value_u64
    rw [if_neg hcond, if_pos hv]
  unfold token.as_double at hd
  rw [hgd] at hd
  unfold token.as_int64
  rw [hgu]
  by_cases hfp : t.m_flags &&& tokflags.floating_point = 0
  · obtain ⟨v, hvlt, hu, hdd⟩ := update_shape_nonfloat t hfp
    rw [hdd] at hd
    have hq : ((rnDouble v : Nat) : ℚ) = q := by
      injection hd
    have hrlt : rnDouble v < 2 ^ 53 := by
      have : ((rnDouble v : Nat) : ℚ) < ((2 ^ 53 : Nat) : ℚ) := by
        rw [hq]
        exact_mod_cast hq53
      exact_mod_cast this
    have hv53 : v < 2 ^ 53 := by
      by_contra hge
      push_neg at hge
      rcases Nat.eq_or_lt_of_le hge with heq | hlt
      · rw [← heq] at hrlt
        rw [rnDouble_of_le (2 ^ 53) (le_refl _)] at hrlt
        omega
      · have := rnDouble_ge v hlt hvlt
        omega
    have hrn : rnDouble v = v := rnDouble_of_le v (le_of_lt hv53)
    rw [hu]
    have hqv : q = ((v : Nat) : ℚ) := by
      rw [← hq, hrn]
    rw [hqv, ratTruncZ_natCast]
    unfold toInt64
    rw [Nat.mod_eq_of_lt (by omega)]
    rw [if_pos (by omega)]
  · obtain ⟨hdd, hu⟩ := update_shape_float t hfp hexc
    rw [hdd] at hd
    have hpq : token.parseFloatText t.m_string = q := by
      injection hd
    rw [hu, hpq]
    have hq64 : q < 2 ^ 64 := lt_trans hq53 (by norm_num)
    simp only [dvalToU64]
    rw [if_pos ⟨hq0, hq64⟩]
    have hfl := ratTruncZ_eq_floor q hq0
    have hfnn : 0 ≤ ⌊q⌋ := Int.floor_nonneg.mpr hq0
    have hflt : ⌊q⌋ < 2 ^ 53 := by
      rw [Int.floor_lt]
      calc q < 2 ^ 53 := hq53
      _ = ((2 ^ 53 : ℤ) : ℚ) := by norm_num
    rw [hfl]
    unfold toInt64
    rw [Nat.mod_eq_of_lt (by omega)]
    rw [if_pos (by omega)]
    omega

/-- Witness for the amended C3 at the input `42`. -/
theorem C3_amended_witness : c3_wit_tok.as_int64 = ratTruncZ ((42 : Nat) : ℚ) :=
  C3_amended [52, 50] 0 {} c3_wit_tok 0 2 0 ((42 : Nat) : ℚ) (by rfl) (by decide) (by decide)
    (by decide) (by norm_num) (by norm_num)

/-- Reading a buffer at an offset is reading the head of the dropped
suffix. -/
theorem bAt_drop (buf : List Nat) : ∀ (i : Nat), bAt buf i = (buf.drop i).headD 0 := by
  induction buf with
  | nil => intro i; cases i <;> rfl
  | cons a rest ih =>
      intro i
      cases i with
      | zero => rfl
      | succ j =>
          show bAt rest j = _
          rw [ih j]
          rfl

/-- Decomposition of a buffer suffix into its first byte and remainder. -/
theorem drop_cons {buf : List Nat} : ∀ {p : Nat} {c : Nat} {l : List Nat},
    buf.drop p = c :: l → bAt buf p = c ∧ buf.drop (p + 1) = l := by
  induction buf with
  | nil => intro p c l h; simp at h
  | cons a rest ih =>
      intro p c l h
      cases p with
      | zero =>
          simp at h
          obtain ⟨h1, h2⟩ := h
          subst h1
          subst h2
          exact ⟨rfl, by simp⟩
      | succ p =>
          have h' : rest.drop p = c :: l := h
          obtain ⟨h1, h2⟩ := ih h'
          exact ⟨h1, h2⟩

/-- The decimal escape loop consumes exactly a digit run and accumulates its
decimal value. -/
theorem escDecLoop_run :
    ∀ (ds buf : List Nat) (pos : Nat) (v : ℤ) (fuel : Nat) (rest : List Nat),
      buf.drop pos = ds ++ rest →
      (∀ c ∈ ds, 48 ≤ c ∧ c ≤ 57) →
      ¬ (48 ≤ bAt buf (pos + ds.length) ∧ bAt buf (pos + ds.length) ≤ 57) →
      ds.length < fuel →
      escDecLoop buf fuel pos v =
        (pos + ds.length,
         List.foldl (fun (a : ℤ) (c : Nat) => a * 10 + ((c : ℤ) - 48)) v ds) := by
  intro ds
  induction ds with
  | nil =>
      intro buf pos v fuel rest hdrop hds hterm hfuel
      cases fuel with
      | zero => omega
      | succ f =>
          unfold escDecLoop
          rw [if_neg (by simpa using hterm)]
          simp
  | cons d ds ih =>
      intro buf pos v fuel rest hdrop hds hterm hfuel
      obtain ⟨hb, hd2⟩ := drop_cons (by simpa using hdrop)
      cases fuel with
      | zero => simp at hfuel
      | succ f =>
          unfold escDecLoop
          have hd48 := hds d (List.mem_cons_self d ds)
          rw [if_pos ⟨hb.symm ▸ hd48.1, hb.symm ▸ hd48.2⟩, hb]
          have hterm2 : ¬ (48 ≤ bAt buf (pos + 1 + ds.length) ∧
              bAt buf (pos + 1 + ds.length) ≤ 57) := by
            have h3 : pos + 1 + ds.length = pos + (d :: ds).length := by
              simp
              omega
            rw [h3]
            exact hterm
          have hrec := ih buf (pos + 1) (v * 10 + ((d : ℤ) - 48)) f rest hd2
            (fun c hc => hds c (List.mem_cons_of_mem _ hc)) hterm2 (by simp at hfuel; omega)
          rw [hrec]
          simp only [List.foldl_cons, List.length_cons, Prod.mk.injEq]
          exact ⟨by omega, by trivial⟩

/-- The hex escape loop consumes exactly a standard hex-digit run and
accumulates its value. -/
theorem escHexLoop_run :
    ∀ (hs buf : List Nat) (pos : Nat) (v : ℤ) (fuel : Nat) (rest : List Nat),
      buf.drop pos = hs ++ rest →
      (∀ c ∈ hs, (48 ≤ c ∧ c ≤ 57) ∨ (65 ≤ c ∧ c ≤ 70) ∨ (97 ≤ c ∧ c ≤ 102)) →
      ¬ ((48 ≤ bAt buf (pos + hs.length) ∧ bAt buf (pos + hs.length) ≤ 57) ∨
         (65 ≤ bAt buf (pos + hs.length) ∧ bAt buf (pos + hs.length) ≤ 90) ∨
         (97 ≤ bAt buf (pos + hs.length) ∧ bAt buf (pos + hs.length) ≤ 122)) →
      hs.length < fuel →
      escHexLoop buf fuel pos v =
        (pos + hs.length,
         List.foldl (fun (a : ℤ) (c : Nat) => a * 16 + ((hexDigitNat c : Nat) : ℤ)) v hs) := by
  intro hs
  induction hs with
  | nil =>
      intro buf pos v fuel rest hdrop hds hterm hfuel
      cases fuel with
      | zero => omega
      | succ f =>
          have hA : ¬ (48 ≤ bAt buf pos ∧ bAt buf pos ≤ 57) :=
            fun h => hterm (Or.inl (by simpa using h))
          have hB : ¬ (65 ≤ bAt buf pos ∧ bAt buf pos ≤ 90) :=
            fun h => hterm (Or.inr (Or.inl (by simpa using h)))
          have hC : ¬ (97 ≤ bAt buf pos ∧ bAt buf pos ≤ 122) :=
            fun h => hterm (Or.inr (Or.inr (by simpa using h)))
          unfold escHexLoop
          rw [if_neg hA, if_neg hB, if_neg hC]
          simp
  | cons d hs ih =>
      intro buf pos v fuel rest hdrop hds hterm hfuel
      obtain ⟨hb, hd2⟩ := drop_cons (by simpa using hdrop)
      cases fuel with
      | zero => simp at hfuel
      | succ f =>
          unfold escHexLoop
          have hterm2 : ¬ ((48 ≤ bAt buf (pos + 1 + hs.length) ∧
              bAt buf (pos + 1 + hs.length) ≤ 57) ∨
              (65 ≤ bAt buf (pos + 1 + hs.length) ∧ bAt buf (pos + 1 + hs.length) ≤ 90) ∨
              (97 ≤ bAt buf (pos + 1 + hs.length) ∧ bAt buf (pos + 1 + hs.length) ≤ 122)) := by
            have h3 : pos + 1 + hs.length = pos + (d :: hs).length := by
              simp
              omega
            rw [h3]
            exact hterm
          have hrest : ∀ c ∈ hs, (48 ≤ c ∧ c ≤ 57) ∨ (65 ≤ c ∧ c ≤ 70) ∨
              (97 ≤ c ∧ c ≤ 102) := fun c hc => hds c (List.mem_cons_of_mem _ hc)
          have hfuel2 : hs.length < f := by simp at hfuel; omega
          have hd0 := hds d (List.mem_cons_self d hs)
          rcases hd0 with hdig | hupper | hlower
          · rw [hb, if_pos hdig]
            have hval : (d : ℤ) - 48 = (hexDigitNat d : ℤ) := by
              unfold hexDigitNat
              rw [if_pos hdig]
              omega
            rw [hval, ih buf (pos + 1) _ f rest hd2 hrest hterm2 hfuel2]
            simp only [List.foldl_cons, List.length_cons, Prod.mk.injEq]
            exact ⟨by omega, by trivial⟩
          · rw [hb, if_neg (by omega), if_pos (by omega)]
            have hval : (d : ℤ) - 65 + 10 = (hexDigitNat d : ℤ) := by
              unfold hexDigitNat
              rw [if_neg (by omega), if_pos hupper]
              omega
            rw [hval, ih buf (pos + 1) _ f rest hd2 hrest hterm2 hfuel2]
            simp only [List.foldl_cons, List.length_cons, Prod.mk.injEq]
            exact ⟨by omega, by trivial⟩
          · rw [hb, if_neg (by omega), if_neg (by omega), if_pos (by omega)]
            have hval : (d : ℤ) - 97 + 10 = (hexDigitNat d : ℤ) := by
              unfold hexDigitNat
              rw [if_neg (by omega), if_neg (by omega), if_pos hlower]
              omega
            rw [hval, ih buf (pos + 1) _ f rest hd2 hrest hterm2 hfuel2]
            simp only [List.foldl_cons, List.length_cons, Prod.mk.injEq]
            exact ⟨by omega, by trivial⟩

/-- The integer decimal accumulation equals the natural-number fold. -/
theorem decFold_cast :
    ∀ (ds : List Nat) (v : Nat), (∀ c ∈ ds, 48 ≤ c) →
      List.foldl (fun (a : ℤ) (c : Nat) => a * 10 + ((c : ℤ) - 48)) ((v : Nat) : ℤ) ds =
        ((List.foldl (fun (a : Nat) (c : Nat) => a * 10 + (c - 48)) v ds : Nat) : ℤ) := by
  intro ds
  induction ds with
  | nil => intro v h; rfl
  | cons d ds ih =>
      intro v h
      have hd := h d (List.mem_cons_self d ds)
      simp only [List.foldl_cons]
      have hstep : ((v : Nat) : ℤ) * 10 + ((d : ℤ) - 48) =
          (((v * 10 + (d - 48) : Nat)) : ℤ) := by
        push_cast [Nat.cast_sub hd]
        ring
      rw [hstep]
      exact ih _ (fun c hc => h c (List.mem_cons_of_mem _ hc))

/-- The integer hex accumulation equals the natural-number fold. -/
theorem hexFold_cast :
    ∀ (hs : List Nat) (v : Nat),
      List.foldl (fun (a : ℤ) (c : Nat) => a * 16 + ((hexDigitNat c : Nat) : ℤ))
          ((v : Nat) : ℤ) hs =
        ((List.foldl (fun (a : Nat) (c : Nat) => a * 16 + hexDigitNat c) v hs : Nat) : ℤ) := by
  intro hs
  induction hs with
  | nil => intro v; rfl
  | cons d hs ih =>
      intro v
      simp only [List.foldl_cons]
      have hstep : ((v : Nat) : ℤ) * 16 + ((hexDigitNat d : Nat) : ℤ) =
          (((v * 16 + hexDigitNat d : Nat)) : ℤ) := by
        push_cast
        ring
      rw [hstep]
      exact ih _

/-- C5 (counterexample): reading the escape in `"\05"` consumes only the
`0` (the `\0` escape) and yields character code 0, not the decimal value 5
of the digit run `05`; the remaining `5` is left in the input. -/
theorem C5_counterexample :
    internal_read_escape_character [92, 48, 53] 0 = (some 0, 2, 0) ∧ (0 : Nat) ≠ 5 :=
  ⟨rfl, by decide⟩

/-- C5 (amended): a backslash followed by a decimal digit run NOT starting
with `0` (a leading `0` is consumed as the `\0` escape) denotes the
character with that decimal — not octal — code, and for both this form and
the `\xHH..` hex form a value above `0xFF` produces one warning and
saturates to `0xFF`.  (The `< 2^31` bounds keep the modelled `int`
accumulator inside the range where the C++ code has defined behaviour.) -/
theorem C5_amended :
    (∀ (ds rest : List Nat),
       ds ≠ [] → (∀ c ∈ ds, 48 ≤ c ∧ c ≤ 57) → ds.headD 0 ≠ 48 →
      decVal ds < 2 ^ 31 →
       ¬ (48 ≤ rest.headD 0 ∧ rest.headD 0 ≤ 57) →
       internal_read_escape_character (92 :: (ds ++ rest)) 0 =
         (some (if 255 < decVal ds then 255 else decVal ds), 1 + ds.length,
          if 255 < decVal ds then 1 else 0)) ∧
    (∀ (hs rest : List Nat),
       hs ≠ [] →
       (∀ c ∈ hs, (48 ≤ c ∧ c ≤ 57) ∨ (65 ≤ c ∧ c ≤ 70) ∨ (97 ≤ c ∧ c ≤ 102)) →
       hexVal hs < 2 ^ 31 →
       ¬ ((48 ≤ rest.headD 0 ∧ rest.headD 0 ≤ 57) ∨
          (65 ≤ rest.headD 0 ∧ rest.headD 0 ≤ 90) ∨
          (97 ≤ rest.headD 0 ∧ rest.headD 0 ≤ 122)) →
       internal_read_escape_character (92 :: 120 :: (hs ++ rest)) 0 =
         (some (if 255 < hexVal hs then 255 else hexVal hs), 2 + hs.length,
          if 255 < hexVal hs then 1 else 0)) := by
  constructor
  · intro ds rest hne hds hhead hbound hterm
    obtain ⟨d, ds', rfl⟩ := List.exists_cons_of_ne_nil hne
    have hd0 := hds d (List.mem_cons_self d ds')
    have hd49 : 49 ≤ d := by
      have hne48 : d ≠ 48 := by simpa using hhead
      omega
    have hdrop : (92 :: ((d :: ds') ++ rest)).drop 1 = (d :: ds') ++ rest := rfl
    have hdr2 : (92 :: ((d :: ds') ++ rest)).drop (1 + (d :: ds').length) = rest := by
      rw [show 1 + (d :: ds').length = (d :: ds').length + 1 from by omega]
      show ((d :: ds') ++ rest).drop ((d :: ds').length) = rest
      exact List.drop_left _ _
    have htermB : ¬ (48 ≤ bAt (92 :: ((d :: ds') ++ rest)) (1 + (d :: ds').length) ∧
        bAt (92 :: ((d :: ds') ++ rest)) (1 + (d :: ds').length) ≤ 57) := by
      rw [bAt_drop, hdr2]
      exact hterm
    have hfuel : (d :: ds').length < (92 :: ((d :: ds') ++ rest)).length + 1 := by
      simp only [List.length_cons, List.length_append]
      omega
    have hrun := escDecLoop_run (d :: ds') (92 :: ((d :: ds') ++ rest)) 1 0
      ((92 :: ((d :: ds') ++ rest)).length + 1) rest hdrop hds htermB hfuel
    have hfold : List.foldl (fun (a : ℤ) (c : Nat) => a * 10 + ((c : ℤ) - 48)) (0 : ℤ)
        (d :: ds') = ((decVal (d :: ds') : Nat) : ℤ) := by
      have h := decFold_cast (d :: ds') 0 (fun c hc => (hds c hc).1)
      simpa [decVal] using h
    have h2 : (escDecLoop (92 :: ((d :: ds') ++ rest))
        ((92 :: ((d :: ds') ++ rest)).length + 1) 1 0).2 =
        ((decVal (d :: ds') : Nat) : ℤ) := by
      rw [hrun]
      exact hfold
    have h1 : (escDecLoop (92 :: ((d :: ds') ++ rest))
        ((92 :: ((d :: ds') ++ rest)).length + 1) 1 0).1 = 1 + (d :: ds').length := by
      rw [hrun]
    simp only [internal_read_escape_character, Nat.zero_add]
    have hb1 : bAt (92 :: ((d :: ds') ++ rest)) 1 = d := rfl
    rw [hb1]
    have e48 : ¬ d = 48 := by omega
    have e110 : ¬ d = 110 := by omega
    have e114 : ¬ d = 114 := by omega
    have e116 : ¬ d = 116 := by omega
    have e118 : ¬ d = 118 := by omega
    have e98 : ¬ d = 98 := by omega
    have e102 : ¬ d = 102 := by omega
    have e97 : ¬ d = 97 := by omega
    have e92 : ¬ d = 92 := by omega
    have e39 : ¬ d = 39 := by omega
    have e34 : ¬ d = 34 := by omega
    have e63 : ¬ d = 63 := by omega
    have e120 : ¬ d = 120 := by omega
    have erange : ¬ (d < 48 ∨ 57 < d) := by omega
    rw [if_neg e48, if_neg e110, if_neg e114, if_neg e116, if_neg e118, if_neg e98,
        if_neg e102, if_neg e97, if_neg e92, if_neg e39, if_neg e34, if_neg e63,
        if_neg e120, if_neg erange, h2, h1]
    by_cases hsat : 255 < decVal (d :: ds')
    · rw [if_pos (show (255 : ℤ) < ((decVal (d :: ds') : Nat) : ℤ) by exact_mod_cast hsat),
          if_pos hsat, if_pos hsat]
    · rw [if_neg (show ¬ (255 : ℤ) < ((decVal (d :: ds') : Nat) : ℤ) by exact_mod_cast hsat),
          if_neg hsat, if_neg hsat, Int.toNat_natCast]
  · intro hs rest hne hds hbound hterm
    have hdrop : (92 :: 120 :: (hs ++ rest)).drop (1 + 1) = hs ++ rest := rfl
    have hdr2 : (92 :: 120 :: (hs ++ rest)).drop (1 + 1 + hs.length) = rest := by
      rw [show 1 + 1 + hs.length = hs.length + 2 from by omega]
      show (hs ++ rest).drop hs.length = rest
      exact List.drop_left _ _
    have htermB : ¬ ((48 ≤ bAt (92 :: 120 :: (hs ++ rest)) (1 + 1 + hs.length) ∧
        bAt (92 :: 120 :: (hs ++ rest)) (1 + 1 + hs.length) ≤ 57) ∨
        (65 ≤ bAt (92 :: 120 :: (hs ++ rest)) (1 + 1 + hs.length) ∧
         bAt (92 :: 120 :: (hs ++ rest)) (1 + 1 + hs.length) ≤ 90) ∨
        (97 ≤ bAt (92 :: 120 :: (hs ++ rest)) (1 + 1 + hs.length) ∧
         bAt (92 :: 120 :: (hs ++ rest)) (1 + 1 + hs.length) ≤ 122)) := by
      rw [bAt_drop, hdr2]
      exact hterm
    have hfuel : hs.length < (92 :: 120 :: (hs ++ rest)).length + 1 := by
      simp only [List.length_cons, List.length_append]
      omega
    have hrun := escHexLoop_run hs (92 :: 120 :: (hs ++ rest)) (1 + 1) 0
      ((92 :: 120 :: (hs ++ rest)).length + 1) rest hdrop hds htermB hfuel
    have hfold : List.foldl (fun (a : ℤ) (c : Nat) => a * 16 + ((hexDigitNat c : Nat) : ℤ))
        (0 : ℤ) hs = ((hexVal hs : Nat) : ℤ) := by
      have h := hexFold_cast hs 0
      simpa [hexVal] using h
    have h2 : (escHexLoop (92 :: 120 :: (hs ++ rest))
        ((92 :: 120 :: (hs ++ rest)).length + 1) (1 + 1) 0).2 =
        ((hexVal hs : Nat) : ℤ) := by
      rw [hrun]
      exact hfold
    have h1 : (escHexLoop (92 :: 120 :: (hs ++ rest))
        ((92 :: 120 :: (hs ++ rest)).length + 1) (1 + 1) 0).1 = 2 + hs.length := by
      rw [hrun]
    simp only [internal_read_escape_character, Nat.zero_add]
    have hb1 : bAt (92 :: 120 :: (hs ++ rest)) 1 = 120 := rfl
    rw [hb1]
    have f48 : ¬ (120 : Nat) = 48 := by decide
    have f110 : ¬ (120 : Nat) = 110 := by decide
    have f114 : ¬ (120 : Nat) = 114 := by decide
    have f116 : ¬ (120 : Nat) = 116 := by decide
    have f118 : ¬ (120 : Nat) = 118 := by decide
    have f98 : ¬ (120 : Nat) = 98 := by decide
    have f102 : ¬ (120 : Nat) = 102 := by decide
    have f97 : ¬ (120 : Nat) = 97 := by decide
    have f92 : ¬ (120 : Nat) = 92 := by decide
    have f39 : ¬ (120 : Nat) = 39 := by decide
    have f34 : ¬ (120 : Nat) = 34 := by decide
    have f63 : ¬ (120 : Nat) = 63 := by decide
    rw [if_neg f48, if_neg f110, if_neg f114, if_neg f116, if_neg f118, if_neg f98,
        if_neg f102, if_neg f97, if_neg f92, if_neg f39, if_neg f34, if_neg f63,
        if_pos rfl, h2, h1]
    by_cases hsat : 255 < hexVal hs
    · rw [if_pos (show (255 : ℤ) < ((hexVal hs : Nat) : ℤ) by exact_mod_cast hsat),
          if_pos hsat, if_pos hsat]
    · rw [if_neg (show ¬ (255 : ℤ) < ((hexVal hs : Nat) : ℤ) by exact_mod_cast hsat),
          if_neg hsat, if_neg hsat, Int.toNat_natCast]

/-- Witness for C5: `\12` is decimal twelve, `\300` warns and saturates to
`0xFF`, and `\x1FF` warns and saturates to `0xFF`. -/
theorem C5_witness :
    internal_read_escape_character [92, 49, 50] 0 = (some 12, 3, 0) ∧
    internal_read_escape_character [92, 51, 48, 48] 0 = (some 255, 4, 1) ∧
    internal_read_escape_character [92, 120, 49, 70, 70] 0 = (some 255, 5, 1) := by
  refine ⟨?_, ?_, ?_⟩
  · have h := C5_amended.1 [49, 50] [] (by decide) (by decide) (by decide) (by decide)
      (by decide)
    rw [show decVal [49, 50] = 12 from rfl] at h
    have h255 : ¬ (255 : Nat) < 12 := by norm_num
    rw [if_neg h255, if_neg h255] at h
    exact h
  · have h := C5_amended.1 [51, 48, 48] [] (by decide) (by decide) (by decide) (by decide)
      (by decide)
    rw [show decVal [51, 48, 48] = 300 from rfl] at h
    have h255 : (255 : Nat) < 300 := by norm_num
    rw [if_pos h255, if_pos h255] at h
    exact h
  · have h := C5_amended.2 [49, 70, 70] [] (by decide) (by decide) (by decide) (by decide)
    rw [show hexVal [49, 70, 70] = 511 from rfl] at h
    have h255 : (255 : Nat) < 511 := by norm_num
    rw [if_pos h255, if_pos h255] at h
    exact h

/-- C7 (counterexample): the operation sequence `error(); reset()` makes
`get_error_count()` drop from 1 back to 0, so the counter is not
non-decreasing under arbitrary operation sequences. -/
theorem C7_counterexample :
    (applyOp default_cfg lexop.op_error (init_from_memory [] 0)).m_error_count = 1 ∧
    (applyOp default_cfg lexop.op_reset
        (applyOp default_cfg lexop.op_error (init_from_memory [] 0))).m_error_count = 0 :=
  ⟨rfl, rfl⟩

/-- C8 (counterexample): with an arbitrary token `z` in the pushback slot
over the buffer `a`, a missed `check_token_string("x")` consumes the slot
and rewinds only the script pointer, so the next `next_token` now yields the
buffer token `a` instead of the slot token `z`: the observable state was
changed by the miss. -/
theorem C8_counterexample :
    (check_token_string default_cfg [120] c8_st0).1 = false ∧
    (next_token default_cfg c8_st0).1 = some c8_ztok ∧
    (next_token default_cfg ((check_token_string default_cfg [120] c8_st0).2)).1 ≠
      (next_token default_cfg c8_st0).1 := by
  refine ⟨rfl, rfl, ?_⟩
  decide

/-- Error/warning counters never decrease across a `next_token` call. -/
theorem next_token_counts_le (cfg : punctcfg) (st : lexstate) :
    st.m_error_count ≤ (next_token cfg st).2.m_error_count ∧
    st.m_warn_count ≤ (next_token cfg st).2.m_warn_count := by
  unfold next_token
  split
  · exact ⟨Nat.le_succ _, Nat.le_refl _⟩
  · split
    · exact ⟨Nat.le_refl _, Nat.le_refl _⟩
    · exact ⟨Nat.le_add_right _ _, Nat.le_add_right _ _⟩

/-- C7 (amended): every modelled operation other than `reset()` and
`clear()` leaves both counters non-decreasing, and `error()` / `warning()`
increment their counter by exactly one even when the output-suppression
flags are set (the increment precedes the flag test in the source). -/
theorem C7_amended :
    ∀ (cfg : punctcfg) (o : lexop) (st : lexstate),
      o ≠ lexop.op_reset → o ≠ lexop.op_clear →
      (st.m_error_count ≤ (applyOp cfg o st).m_error_count ∧
       st.m_warn_count ≤ (applyOp cfg o st).m_warn_count) ∧
      (applyOp cfg lexop.op_error st).m_error_count = st.m_error_count + 1 ∧
      (applyOp cfg lexop.op_warning st).m_warn_count = st.m_warn_count + 1 := by
  intro cfg o st hr hc
  refine ⟨?_, rfl, rfl⟩
  cases o with
  | op_next_token => exact next_token_counts_le cfg st
  | op_check_token_string s =>
      have hn := next_token_counts_le cfg st
      unfold applyOp check_token_string
      rcases h : next_token cfg st with ⟨r, st1⟩
      rw [h] at hn
      cases r with
      | none => exact hn
      | some tok =>
          by_cases hs : tok.m_string = s <;> simp [hs] <;> exact hn
  | op_check_token_type ty sub =>
      have hn := next_token_counts_le cfg st
      unfold applyOp check_token_type
      rcases h : next_token cfg st with ⟨r, st1⟩
      rw [h] at hn
      cases r with
      | none => exact hn
      | some tok =>
          by_cases hs : tok.m_type = ty ∧ tok.m_flags &&& sub = sub <;>
            simp [hs] <;> exact hn
  | op_peek_token_string s =>
      have hn := next_token_counts_le cfg st
      unfold applyOp peek_token_string
      rcases h : next_token cfg st with ⟨r, st1⟩
      rw [h] at hn
      cases r with
      | none => exact hn
      | some tok => exact hn
  | op_peek_token_type ty sub =>
      have hn := next_token_counts_le cfg st
      unfold applyOp peek_token_type
      rcases h : next_token cfg st with ⟨r, st1⟩
      rw [h] at hn
      cases r with
      | none => exact hn
      | some tok =>
          by_cases hs : tok.m_type = ty ∧ tok.m_flags &&& sub = sub <;>
            simp [hs] <;> exact hn
  | op_unget_token t =>
      simp only [applyOp, unget_token]
      by_cases hb : st.m_token_available = true
      · simp only [if_pos hb, lex_warning]
        exact ⟨Nat.le_refl _, Nat.le_succ _⟩
      · simp only [if_neg hb]
        exact ⟨Nat.le_refl _, Nat.le_refl _⟩
  | op_error => exact ⟨Nat.le_succ _, Nat.le_refl _⟩
  | op_warning => exact ⟨Nat.le_refl _, Nat.le_succ _⟩
  | op_reset => exact absurd rfl hr
  | op_clear => exact absurd rfl hc

/-- `update_cached_values` touches only the cache fields. -/
theorem update_preserves (t : token) :
    (t.update_cached_values).m_string = t.m_string ∧
    (t.update_cached_values).m_flags = t.m_flags ∧
    (t.update_cached_values).m_type = t.m_type ∧
    (t.update_cached_values).m_values_valid = true := by
  unfold token.update_cached_values
  split_ifs <;> exact ⟨rfl, rfl, rfl, rfl⟩

/-- The recomputed cache values depend only on the text and flags. -/
theorem update_congr (t1 t2 : token) (hs : t1.m_string = t2.m_string)
    (hf : t1.m_flags = t2.m_flags) :
    (t1.update_cached_values).m_u64_value = (t2.update_cached_values).m_u64_value ∧
    (t1.update_cached_values).m_double_value = (t2.update_cached_values).m_double_value := by
  unfold token.update_cached_values
  rw [hs, hf]
  split_ifs <;> exact ⟨rfl, rfl⟩

/-- A default-constructed token is cache-consistent. -/
theorem consistent_default : cache_consistent ({} : token) := by
  intro _
  exact ⟨by decide, by decide⟩

/-- Every token operation preserves cache consistency. -/
theorem consistent_step (o : tokop) (t : token) (h : cache_consistent t) :
    cache_consistent (applyTokOp o t) := by
  cases o with
  | t_set_string s => intro hv; simp [applyTokOp, token.set_string] at hv
  | t_set_flags f => intro hv; simp [applyTokOp, token.set_flags] at hv
  | t_set_type ty => intro hv; simp [applyTokOp, token.set_type] at hv
  | t_set_line_number n =>
      intro hv
      have hv' : t.m_values_valid = true := hv
      have hc := h hv'
      have hcg := update_congr (t.set_line_number n) t rfl rfl
      exact ⟨hcg.1.symm ▸ hc.1, hcg.2.symm ▸ hc.2⟩
  | t_set_lines_crossed n =>
      intro hv
      have hv' : t.m_values_valid = true := hv
      have hc := h hv'
      have hcg := update_congr (t.set_lines_crossed n) t rfl rfl
      exact ⟨hcg.1.symm ▸ hc.1, hcg.2.symm ▸ hc.2⟩
  | t_append_char c =>
      intro hv
      simp only [applyTokOp, token.append_char] at hv ⊢
      by_cases hc0 : c ≠ 0
      · rw [if_pos hc0] at hv; simp at hv
      · rw [if_neg hc0] at hv ⊢
        exact h hv
  | t_append_str s =>
      intro hv
      simp only [applyTokOp, token.append_str] at hv ⊢
      by_cases hc0 : s.headD 0 ≠ 0
      · rw [if_pos hc0] at hv; simp at hv
      · rw [if_neg hc0] at hv ⊢
        exact h hv
  | t_clear =>
      intro hv
      simp only [applyTokOp, token.clear]
      exact ⟨by decide, by decide⟩
  | t_query =>
      simp only [applyTokOp, tok_query]
      split_ifs with h1 h2
      · exact h
      · intro _
        have hp := update_preserves t
        have hcg := update_congr t.update_cached_values t hp.1 hp.2.1
        exact ⟨hcg.1.symm, hcg.2.symm⟩
      · exact h

/-- Any operation sequence from a consistent token stays consistent. -/
theorem all_consistent (ops : List tokop) :
    ∀ (t : token), cache_consistent t → cache_consistent (tokenOpsFold ops t) := by
  induction ops with
  | nil => intro t h; exact h
  | cons o rest ih =>
      intro t h
      exact ih (applyTokOp o t) (consistent_step o t h)

/-- C4: from a fresh token, after any sequence of operations the value
accessors agree with a recomputation from the current text and flags (the
cached value is never stale); and each of `set_string`, `set_flags`,
`set_type`, the append of a non-NUL character and of a non-empty string
marks the cached values invalid. -/
theorem C4_token_cache_invariant :
    (∀ (ops : List tokop),
       token.get_value_u64 (tokenOpsFold ops {}) =
         (if (tokenOpsFold ops {}).is_number = true ∨ (tokenOpsFold ops {}).is_boolean = true
          then ((tokenOpsFold ops {}).update_cached_values).m_u64_value else 0) ∧
       token.get_value_double (tokenOpsFold ops {}) =
         (if (tokenOpsFold ops {}).is_number = true ∨ (tokenOpsFold ops {}).is_boolean = true
          then ((tokenOpsFold ops {}).update_cached_values).m_double_value
          else double_val.finite 0)) ∧
    (∀ (t : token) (s : List Nat) (f : Nat) (ty : toktype) (c : Nat),
       (t.set_string s).m_values_valid = false ∧
       (t.set_flags f).m_values_valid = false ∧
       (t.set_type ty).m_values_valid = false ∧
       (c ≠ 0 → (t.append_char c).m_values_valid = false) ∧
       (s.headD 0 ≠ 0 → (t.append_str s).m_values_valid = false)) := by
  constructor
  · intro ops
    have hc := all_consistent ops {} consistent_default
    generalize ht : tokenOpsFold ops {} = t at hc ⊢
    by_cases hnb : t.is_number = true ∨ t.is_boolean = true
    · rw [if_pos hnb, if_pos hnb]
      unfold token.get_value_u64 token.get_value_double
      have hcond : ¬ (¬ (t.is_number = true) ∧ ¬ (t.is_boolean = true)) := by
        rcases hnb with h | h
        · exact fun hx => hx.1 h
        · exact fun hx => hx.2 h
      rw [if_neg hcond, if_neg hcond]
      by_cases hv : t.m_values_valid = false
      · rw [if_pos hv, if_pos hv]
        exact ⟨rfl, rfl⟩
      · rw [if_neg hv, if_neg hv]
        have hv' : t.m_values_valid = true := by
          cases hvv : t.m_values_valid
          · exact absurd hvv hv
          · rfl
        exact hc hv'
    · rw [if_neg hnb, if_neg hnb]
      unfold token.get_value_u64 token.get_value_double
      have hcond : ¬ (t.is_number = true) ∧ ¬ (t.is_boolean = true) := by
        constructor
        · exact fun h => hnb (Or.inl h)
        · exact fun h => hnb (Or.inr h)
      rw [if_pos hcond, if_pos hcond]
      exact ⟨rfl, rfl⟩
  · intro t s f ty c
    refine ⟨rfl, rfl, rfl, ?_, ?_⟩
    · intro hc
      simp [token.append_char, hc]
    · intro hs
      unfold token.append_str
      rw [if_pos hs]

/-- Witness for C4 at a concrete operation sequence and concrete mutation
arguments. -/
theorem C4_witness :
    (token.get_value_u64 (tokenOpsFold [tokop.t_set_string [52, 50],
        tokop.t_set_flags (tokflags.decimal ||| tokflags.integer),
        tokop.t_set_type toktype.number, tokop.t_query] {}) =
      (if (tokenOpsFold [tokop.t_set_string [52, 50],
             tokop.t_set_flags (tokflags.decimal ||| tokflags.integer),
             tokop.t_set_type toktype.number, tokop.t_query] {}).is_number = true ∨
          (tokenOpsFold [tokop.t_set_string [52, 50],
             tokop.t_set_flags (tokflags.decimal ||| tokflags.integer),
             tokop.t_set_type toktype.number, tokop.t_query] {}).is_boolean = true
       then ((tokenOpsFold [tokop.t_set_string [52, 50],
               tokop.t_set_flags (tokflags.decimal ||| tokflags.integer),
               tokop.t_set_type toktype.number, tokop.t_query] {}).update_cached_values).m_u64_value
       else 0)) ∧
    (({} : token).append_char 49).m_values_valid = false ∧
    (({} : token).append_str [49]).m_values_valid = false :=
  ⟨(C4_token_cache_invariant.1 [tokop.t_set_string [52, 50],
      tokop.t_set_flags (tokflags.decimal ||| tokflags.integer),
      tokop.t_set_type toktype.number, tokop.t_query]).1,
   (C4_token_cache_invariant.2 {} [49] 0 toktype.none 49).2.2.2.1 (by decide),
   (C4_token_cache_invariant.2 {} [49] 0 toktype.none 49).2.2.2.2 (by decide)⟩

/-- On an initialized lexer with an empty pushback slot, `next_token` is the
scanning phase: the token comes from `next_token_scan` and the state update
snapshots the pre-read position and line. -/
theorem next_token_run (cfg : punctcfg) (st : lexstate)
    (h1 : st.m_initialized = true) (h2 : st.m_token_available = false) :
    next_token cfg st =
      ((next_token_scan cfg st.m_buffer st.m_flags st.m_pos st.m_line_num).res,
       { st with
          m_pos := (next_token_scan cfg st.m_buffer st.m_flags st.m_pos st.m_line_num).pos,
          m_line_num := (next_token_scan cfg st.m_buffer st.m_flags st.m_pos st.m_line_num).line,
          m_last_pos := st.m_pos, m_last_line_num := st.m_line_num,
          m_ws_start := st.m_pos,
          m_ws_end :=
            (next_token_scan cfg st.m_buffer st.m_flags st.m_pos st.m_line_num).wsEnd.getD
              st.m_ws_end,
          m_error_count :=
            st.m_error_count + (next_token_scan cfg st.m_buffer st.m_flags st.m_pos st.m_line_num).derr,
          m_warn_count :=
            st.m_warn_count + (next_token_scan cfg st.m_buffer st.m_flags st.m_pos st.m_line_num).dwarn }) := by
  unfold next_token
  rw [h1, h2]
  simp

/-- The token returned by `next_token` depends only on the buffer, flags,
position, line, pushback slot and initialization flag. -/
theorem next_token_fst_congr (cfg : punctcfg) (s1 s2 : lexstate)
    (hb : s1.m_buffer = s2.m_buffer) (hf : s1.m_flags = s2.m_flags)
    (hp : s1.m_pos = s2.m_pos) (hl : s1.m_line_num = s2.m_line_num)
    (ha : s1.m_token_available = s2.m_token_available)
    (ht : s1.m_leftover_token = s2.m_leftover_token)
    (hi : s1.m_initialized = s2.m_initialized) :
    (next_token cfg s1).1 = (next_token cfg s2).1 := by
  unfold next_token
  rw [hb, hf, hp, hl, ha, ht, hi]
  split_ifs <;> rfl

/-- After a buffer-scanned token, restoring the snapshotted position and
line brings the scanner back to a state from which `next_token` returns the
same token again. -/
theorem rewound_next (cfg : punctcfg) (st st1 : lexstate) (tok : token)
    (h2 : st.m_token_available = false)
    (h : next_token cfg st = (some tok, st1)) :
    st1.m_last_pos = st.m_pos ∧ st1.m_last_line_num = st.m_line_num ∧
    ({ st1 with m_pos := st1.m_last_pos, m_line_num := st1.m_last_line_num } : lexstate).m_pos
      = st.m_pos ∧
    ({ st1 with m_pos := st1.m_last_pos, m_line_num := st1.m_last_line_num } : lexstate).m_line_num
      = st.m_line_num ∧
    (next_token cfg
        { st1 with m_pos := st1.m_last_pos, m_line_num := st1.m_last_line_num }).1 =
      (next_token cfg st).1 := by
  have h1 : st.m_initialized = true := by
    cases hi : st.m_initialized
    · unfold next_token at h
      rw [hi] at h
      simp at h
    · rfl
  have hrun := next_token_run cfg st h1 h2
  rw [hrun] at h
  injection h with hres hst1
  subst hst1
  exact ⟨rfl, rfl, rfl, rfl, next_token_fst_congr cfg _ st rfl rfl rfl rfl rfl rfl rfl⟩

/-- C8 (amended): when the pushback slot is empty and a candidate token was
actually read from the buffer, a miss of `check_token_string` /
`check_token_type` (and any outcome of `peek_token_string` /
`peek_token_type`) restores the read position and current line, and a
subsequent `next_token` returns the same token as before the call.  (The
restoration fails when the candidate came from the pushback slot — see the
counterexample — and when no token could be read at all, in which case the
position is left at the end of the whitespace.) -/
theorem C8_amended :
    ∀ (cfg : punctcfg) (st : lexstate),
      st.m_token_available = false →
      (∀ (s : List Nat) (tok : token) (st1 : lexstate),
         next_token cfg st = (some tok, st1) → tok.m_string ≠ s →
         (check_token_string cfg s st).1 = false ∧
         (check_token_string cfg s st).2.m_pos = st.m_pos ∧
         (check_token_string cfg s st).2.m_line_num = st.m_line_num ∧
         (next_token cfg (check_token_string cfg s st).2).1 = (next_token cfg st).1) ∧
      (∀ (ty : toktype) (sub : Nat) (tok : token) (st1 : lexstate),
         next_token cfg st = (some tok, st1) →
         ¬ (tok.m_type = ty ∧ tok.m_flags &&& sub = sub) →
         (check_token_type cfg ty sub st).1 = none ∧
         (check_token_type cfg ty sub st).2.m_pos = st.m_pos ∧
         (check_token_type cfg ty sub st).2.m_line_num = st.m_line_num ∧
         (next_token cfg (check_token_type cfg ty sub st).2).1 = (next_token cfg st).1) ∧
      (∀ (s : List Nat) (tok : token) (st1 : lexstate),
         next_token cfg st = (some tok, st1) →
         (peek_token_string cfg s st).2.m_pos = st.m_pos ∧
         (peek_token_string cfg s st).2.m_line_num = st.m_line_num ∧
         (next_token cfg (peek_token_string cfg s st).2).1 = (next_token cfg st).1) ∧
      (∀ (ty : toktype) (sub : Nat) (tok : token) (st1 : lexstate),
         next_token cfg st = (some tok, st1) →
         (peek_token_type cfg ty sub st).2.m_pos = st.m_pos ∧
         (peek_token_type cfg ty sub st).2.m_line_num = st.m_line_num ∧
         (next_token cfg (peek_token_type cfg ty sub st).2).1 = (next_token cfg st).1) := by
  intro cfg st h2
  refine ⟨?_, ?_, ?_, ?_⟩
  · intro s tok st1 h hneq
    obtain ⟨hlp, hll, hp, hl, hnx⟩ := rewound_next cfg st st1 tok h2 h
    have hcheck : check_token_string cfg s st =
        (false, { st1 with m_pos := st1.m_last_pos, m_line_num := st1.m_last_line_num }) := by
      unfold check_token_string
      rw [h]
      simp [hneq]
    rw [hcheck]
    exact ⟨rfl, hp, hl, hnx⟩
  · intro ty sub tok st1 h hneq
    obtain ⟨hlp, hll, hp, hl, hnx⟩ := rewound_next cfg st st1 tok h2 h
    have hcheck : check_token_type cfg ty sub st =
        (none, { st1 with m_pos := st1.m_last_pos, m_line_num := st1.m_last_line_num }) := by
      unfold check_token_type
      rw [h]
      simp [hneq]
    rw [hcheck]
    exact ⟨rfl, hp, hl, hnx⟩
  · intro s tok st1 h
    obtain ⟨hlp, hll, hp, hl, hnx⟩ := rewound_next cfg st st1 tok h2 h
    have hpeek : (peek_token_string cfg s st).2 =
        { st1 with m_pos := st1.m_last_pos, m_line_num := st1.m_last_line_num } := by
      unfold peek_token_string
      rw [h]
    rw [hpeek]
    exact ⟨hp, hl, hnx⟩
  · intro ty sub tok st1 h
    obtain ⟨hlp, hll, hp, hl, hnx⟩ := rewound_next cfg st st1 tok h2 h
    have hpeek : (peek_token_type cfg ty sub st).2 =
        { st1 with m_pos := st1.m_last_pos, m_line_num := st1.m_last_line_num } := by
      unfold peek_token_type
      rw [h]
      by_cases hc : tok.m_type = ty ∧ tok.m_flags &&& sub = sub
      · simp [hc]
      · simp [hc]
    rw [hpeek]
    exact ⟨hp, hl, hnx⟩

/-- Witness for C8: over the buffer `a` with an empty pushback slot, a
missed `check_token_string("x")` leaves the position, line and next token
unchanged. -/
theorem C8_witness :
    (check_token_string default_cfg [120] (init_from_memory [97] 0)).1 = false ∧
    (check_token_string default_cfg [120] (init_from_memory [97] 0)).2.m_pos =
      (init_from_memory [97] 0).m_pos ∧
    (check_token_string default_cfg [120] (init_from_memory [97] 0)).2.m_line_num =
      (init_from_memory [97] 0).m_line_num ∧
    (next_token default_cfg (check_token_string default_cfg [120] (init_from_memory [97] 0)).2).1 =
      (next_token default_cfg (init_from_memory [97] 0)).1 :=
  (C8_amended default_cfg (init_from_memory [97] 0) rfl).1 [120]
    (c8_wit_res.1.getD {}) c8_wit_res.2 (by rfl) (by decide)

/-- Witness for C7 at a concrete state and the `error()` operation. -/
theorem C7_witness :
    ((init_from_memory [] 0).m_error_count ≤
       (applyOp default_cfg lexop.op_error (init_from_memory [] 0)).m_error_count ∧
     (init_from_memory [] 0).m_warn_count ≤
       (applyOp default_cfg lexop.op_error (init_from_memory [] 0)).m_warn_count) ∧
    (applyOp default_cfg lexop.op_error (init_from_memory [] 0)).m_error_count =
      (init_from_memory [] 0).m_error_count + 1 ∧
    (applyOp default_cfg lexop.op_warning (init_from_memory [] 0)).m_warn_count =
      (init_from_memory [] 0).m_warn_count + 1 :=
  C7_amended default_cfg lexop.op_error (init_from_memory [] 0) (by decide) (by decide)

/-- A run of decimal digits contains no dot. -/
theorem count46_digits (ds : List Nat) (h : ∀ c ∈ ds, 48 ≤ c ∧ c ≤ 57) :
    ds.count 46 = 0 := by
  rw [List.count_eq_zero]
  intro hm
  have := h 46 hm
  omega

/-- Dropping past a known suffix empties the buffer. -/
theorem drop_all {l s : List Nat} {p : Nat} (h : l.drop p = s) :
    l.drop (p + s.length) = [] := by
  have h2 : (l.drop p).drop s.length = [] := by
    rw [h]
    simp
  rw [List.drop_drop] at h2
  exact h2

/-- The plain digit loop consumes exactly a digit run, appending it. -/
theorem digitsLoop_run :
    ∀ (s buf : List Nat) (tok : token) (pos fuel : Nat) (rest : List Nat),
      buf.drop pos = s ++ rest →
      (∀ c ∈ s, 48 ≤ c ∧ c ≤ 57) →
      ¬ (48 ≤ bAt buf (pos + s.length) ∧ bAt buf (pos + s.length) ≤ 57) →
      s.length < fuel →
      digitsLoop buf fuel tok pos = ⟨s.foldl token.append_char tok, pos + s.length⟩ := by
  intro s
  induction s with
  | nil =>
      intro buf tok pos fuel rest hdrop hmem hterm hfuel
      cases fuel with
      | zero => omega
      | succ f =>
          unfold digitsLoop
          rw [if_neg (by simpa using hterm)]
          simp
  | cons c s' ih =>
      intro buf tok pos fuel rest hdrop hmem hterm hfuel
      obtain ⟨hb, hd2⟩ := drop_cons (by simpa using hdrop)
      cases fuel with
      | zero => simp at hfuel
      | succ f =>
          unfold digitsLoop
          have hc := hmem c (List.mem_cons_self c s')
          have hterm2 : ¬ (48 ≤ bAt buf (pos + 1 + s'.length) ∧
              bAt buf (pos + 1 + s'.length) ≤ 57) := by
            have h3 : pos + 1 + s'.length = pos + (c :: s').length := by
              simp
              omega
            rw [h3]
            exact hterm
          rw [hb, if_pos hc,
              ih buf (tok.append_char c) (pos + 1) f rest hd2
                (fun x hx => hmem x (List.mem_cons_of_mem _ hx)) hterm2
                (by simp at hfuel; omega)]
          simp only [List.foldl_cons, List.length_cons, tp.mk.injEq]
          exact ⟨by trivial, by omega⟩

/-- The digit/dot loop of the decimal scan consumes exactly a digit/dot run,
appending it and counting the dots. -/
theorem digitDotLoop_run :
    ∀ (s buf : List Nat) (tok : token) (pos dot fuel : Nat) (rest : List Nat),
      buf.drop pos = s ++ rest →
      (∀ c ∈ s, (48 ≤ c ∧ c ≤ 57) ∨ c = 46) →
      ¬ ((48 ≤ bAt buf (pos + s.length) ∧ bAt buf (pos + s.length) ≤ 57) ∨
         bAt buf (pos + s.length) = 46) →
      s.length < fuel →
      digitDotLoop buf fuel tok pos dot =
        (s.foldl token.append_char tok, pos + s.length, dot + s.count 46) := by
  intro s
  induction s with
  | nil =>
      intro buf tok pos dot fuel rest hdrop hmem hterm hfuel
      cases fuel with
      | zero => omega
      | succ f =>
          have hA : ¬ (48 ≤ bAt buf pos ∧ bAt buf pos ≤ 57) :=
            fun h => hterm (Or.inl (by simpa using h))
          have hB : ¬ bAt buf pos = 46 :=
            fun h => hterm (Or.inr (by simpa using h))
          unfold digitDotLoop
          rw [if_neg hA, if_neg hB]
          simp
  | cons c s' ih =>
      intro buf tok pos dot fuel rest hdrop hmem hterm hfuel
      obtain ⟨hb, hd2⟩ := drop_cons (by simpa using hdrop)
      cases fuel with
      | zero => simp at hfuel
      | succ f =>
          unfold digitDotLoop
          have hmem0 := hmem c (List.mem_cons_self c s')
          have hterm2 : ¬ ((48 ≤ bAt buf (pos + 1 + s'.length) ∧
              bAt buf (pos + 1 + s'.length) ≤ 57) ∨
              bAt buf (pos + 1 + s'.length) = 46) := by
            have h3 : pos + 1 + s'.length = pos + (c :: s').length := by
              simp
              omega
            rw [h3]
            exact hterm
          have hmem' : ∀ x ∈ s', (48 ≤ x ∧ x ≤ 57) ∨ x = 46 :=
            fun x hx => hmem x (List.mem_cons_of_mem _ hx)
          have hfuel' : s'.length < f := by simp at hfuel; omega
          rcases hmem0 with hdig | h46
          · rw [hb, if_pos hdig,
                ih buf (tok.append_char c) (pos + 1) dot f rest hd2 hmem' hterm2 hfuel']
            simp only [List.foldl_cons, List.length_cons, Prod.mk.injEq]
            have hcc : (c :: s').count 46 = s'.count 46 := by
              rw [List.count_cons,
                  if_neg (show ¬ ((c == 46) = true) from by simp only [beq_iff_eq]; omega)]
              omega
            rw [hcc]
            exact ⟨by trivial, by omega, rfl⟩
          · subst h46
            rw [hb, if_neg (show ¬ (48 ≤ 46 ∧ 46 ≤ 57) by omega), if_pos rfl,
                ih buf (tok.append_char 46) (pos + 1) (dot + 1) f rest hd2 hmem' hterm2 hfuel']
            simp only [List.foldl_cons, List.length_cons, Prod.mk.injEq]
            have hcc : ((46 : Nat) :: s').count 46 = s'.count 46 + 1 := by
              rw [List.count_cons, if_pos (show (((46 : Nat) == 46) = true) from rfl)]
            rw [hcc]
            exact ⟨by trivial, by omega, by omega⟩

/-- A fold of nonzero `append`s produces the concatenated text (and clears
the valid bit as soon as the run is nonempty). -/
theorem foldAppend (s : List Nat) :
    ∀ (t : token), (∀ c ∈ s, c ≠ 0) →
      s.foldl token.append_char t =
        { t with m_string := t.m_string ++ s,
                 m_values_valid := t.m_values_valid && s.isEmpty } := by
  induction s with
  | nil =>
      intro t h
      cases t
      simp
  | cons c s' ih =>
      intro t h
      have hc := h c (List.mem_cons_self c s')
      simp only [List.foldl_cons]
      rw [show token.append_char t c =
            { t with m_string := t.m_string ++ [c], m_values_valid := false } from by
          unfold token.append_char
          rw [if_pos hc],
          ih _ (fun x hx => h x (List.mem_cons_of_mem _ hx))]
      simp

/-- A decimal accumulation never decreases. -/
theorem decFold_ge :
    ∀ (ds : List Nat) (v : Nat),
      v ≤ List.foldl (fun (a : Nat) (c : Nat) => a * 10 + (c - 48)) v ds := by
  intro ds
  induction ds with
  | nil => intro v; exact le_refl v
  | cons c s ih =>
      intro v
      simp only [List.foldl_cons]
      exact le_trans (by omega : v ≤ v * 10 + (c - 48)) (ih (v * 10 + (c - 48)))

/-- When the decimal value of a digit run stays below `2^32`, the wrapping
`std::uint32_t` cell accumulation equals the exact decimal accumulation. -/
theorem cellFold_decVal :
    ∀ (ds : List Nat) (v : Nat),
      (∀ c ∈ ds, 48 ≤ c ∧ c ≤ 57) →
      List.foldl (fun (a : Nat) (c : Nat) => a * 10 + (c - 48)) v ds < 2 ^ 32 →
      cellFold ds v = List.foldl (fun (a : Nat) (c : Nat) => a * 10 + (c - 48)) v ds := by
  intro ds
  induction ds with
  | nil => intro v h hb; rfl
  | cons c s ih =>
      intro v h hb
      have hc := h c (List.mem_cons_self c s)
      unfold cellFold
      simp only [List.foldl_cons] at hb ⊢
      have h1 : (v : ℤ) * 10 + ((c : ℤ) - 48) = ((v * 10 + (c - 48) : Nat) : ℤ) := by
        push_cast [Nat.cast_sub hc.1]
        ring
      have hlt : v * 10 + (c - 48) < 2 ^ 32 := lt_of_le_of_lt (decFold_ge s _) hb
      have hstep : token.u32of ((v : ℤ) * 10 + ((c : ℤ) - 48)) = v * 10 + (c - 48) := by
        unfold token.u32of
        rw [h1,
            show ((v * 10 + (c - 48) : Nat) : ℤ).emod (2 ^ 32) =
                ((v * 10 + (c - 48) : Nat) : ℤ) from
              Int.emod_eq_of_lt (Int.natCast_nonneg _) (by exact_mod_cast hlt)]
        exact Int.toNat_natCast _
      rw [hstep]
      exact ih _ (fun x hx => h x (List.mem_cons_of_mem _ hx)) hb

/-- `cellFold` from zero equals the exact decimal value for small runs. -/
theorem cellFold_decVal0 (ds : List Nat) (h : ∀ c ∈ ds, 48 ≤ c ∧ c ≤ 57)
    (hb : decVal ds < 2 ^ 32) : cellFold ds 0 = decVal ds :=
  cellFold_decVal ds 0 h hb

/-- A separator character advances the octet index of the IP cell loop. -/
theorem parseIpCells_sep (c : Nat) (hc : c = 46 ∨ c = 58) (rest : List Nat) (i : Nat)
    (ip : Nat → Nat) :
    token.parseIpCells (c :: rest) i ip = token.parseIpCells rest (i + 1) ip := by
  rcases hc with rfl | rfl <;> rfl

/-- A non-separator character accumulates decimally into the current cell. -/
theorem parseIpCells_cons_digit (c : Nat) (hc48 : 48 ≤ c) (hc57 : c ≤ 57)
    (rest : List Nat) (i : Nat) (ip : Nat → Nat) :
    token.parseIpCells (c :: rest) i ip =
      token.parseIpCells rest i
        (fun j => if j = i then token.u32of ((ip i : ℤ) * 10 + ((c : ℤ) - 48)) else ip j) := by
  show (if c = 46 ∨ c = 58 then token.parseIpCells rest (i + 1) ip
        else token.parseIpCells rest i
          (fun j => if j = i then token.u32of ((ip i : ℤ) * 10 + ((c : ℤ) - 48)) else ip j)) = _
  rw [if_neg (show ¬ (c = 46 ∨ c = 58) by omega)]

/-- A digit segment of the IP cell loop accumulates into the current cell. -/
theorem parseIpCells_seg (ds : List Nat) :
    ∀ (rest : List Nat) (i : Nat) (ip : Nat → Nat),
      (∀ c ∈ ds, 48 ≤ c ∧ c ≤ 57) →
      token.parseIpCells (ds ++ rest) i ip =
        token.parseIpCells rest i (fun j => if j = i then cellFold ds (ip i) else ip j) := by
  induction ds with
  | nil =>
      intro rest i ip h
      have hfun : (fun j => if j = i then cellFold [] (ip i) else ip j) = ip := by
        funext j
        by_cases hj : j = i
        · rw [if_pos hj, hj]
          rfl
        · rw [if_neg hj]
      rw [List.nil_append, hfun]
  | cons c s ih =>
      intro rest i ip h
      have hc := h c (List.mem_cons_self c s)
      have hfun : (fun j => if j = i then
            cellFold s (if i = i then token.u32of ((ip i : ℤ) * 10 + ((c : ℤ) - 48)) else ip i)
          else if j = i then token.u32of ((ip i : ℤ) * 10 + ((c : ℤ) - 48)) else ip j) =
          (fun j => if j = i then cellFold (c :: s) (ip i) else ip j) := by
        funext j
        by_cases hj : j = i
        · subst hj
          simp [cellFold]
        · simp [hj]
      rw [List.cons_append, parseIpCells_cons_digit c hc.1 hc.2 (s ++ rest) i ip,
          ih rest i _ (fun x hx => h x (List.mem_cons_of_mem _ hx))]
      exact congrArg (token.parseIpCells rest i) hfun

/-- Reading a trailing digit segment fills the current cell and stops. -/
theorem parseIpCells_last (ds : List Nat) (i : Nat) (ip : Nat → Nat)
    (h : ∀ c ∈ ds, 48 ≤ c ∧ c ≤ 57) :
    token.parseIpCells ds i ip = fun j => if j = i then cellFold ds (ip i) else ip j := by
  have h2 := parseIpCells_seg ds [] i ip h
  rw [List.append_nil] at h2
  rw [h2]
  rfl

/-- Cell contents for a full `a.b.c.d:p` text. -/
theorem ipCellsPort (dsa dsb dsc dsd dsp : List Nat)
    (ha : ∀ c ∈ dsa, 48 ≤ c ∧ c ≤ 57) (hb : ∀ c ∈ dsb, 48 ≤ c ∧ c ≤ 57)
    (hc : ∀ c ∈ dsc, 48 ≤ c ∧ c ≤ 57) (hd : ∀ c ∈ dsd, 48 ≤ c ∧ c ≤ 57)
    (hp : ∀ c ∈ dsp, 48 ≤ c ∧ c ≤ 57) :
    (token.parseIpCells
        (dsa ++ (46 :: (dsb ++ (46 :: (dsc ++ (46 :: (dsd ++ (58 :: dsp))))))))
        0 (fun _ => 0)) 0 = cellFold dsa 0 ∧
    (token.parseIpCells
        (dsa ++ (46 :: (dsb ++ (46 :: (dsc ++ (46 :: (dsd ++ (58 :: dsp))))))))
        0 (fun _ => 0)) 1 = cellFold dsb 0 ∧
    (token.parseIpCells
        (dsa ++ (46 :: (dsb ++ (46 :: (dsc ++ (46 :: (dsd ++ (58 :: dsp))))))))
        0 (fun _ => 0)) 2 = cellFold dsc 0 ∧
    (token.parseIpCells
        (dsa ++ (46 :: (dsb ++ (46 :: (dsc ++ (46 :: (dsd ++ (58 :: dsp))))))))
        0 (fun _ => 0)) 3 = cellFold dsd 0 ∧
    (token.parseIpCells
        (dsa ++ (46 :: (dsb ++ (46 :: (dsc ++ (46 :: (dsd ++ (58 :: dsp))))))))
        0 (fun _ => 0)) 4 = cellFold dsp 0 := by
  rw [parseIpCells_seg dsa _ _ _ ha, parseIpCells_sep 46 (Or.inl rfl),
      parseIpCells_seg dsb _ _ _ hb, parseIpCells_sep 46 (Or.inl rfl),
      parseIpCells_seg dsc _ _ _ hc, parseIpCells_sep 46 (Or.inl rfl),
      parseIpCells_seg dsd _ _ _ hd, parseIpCells_sep 58 (Or.inr rfl),
      parseIpCells_last dsp _ _ hp]
  refine ⟨?_, ?_, ?_, ?_, ?_⟩ <;> simp

/-- Cell contents for a portless `a.b.c.d` text (the port cell stays 0). -/
theorem ipCellsNoPort (dsa dsb dsc dsd : List Nat)
    (ha : ∀ c ∈ dsa, 48 ≤ c ∧ c ≤ 57) (hb : ∀ c ∈ dsb, 48 ≤ c ∧ c ≤ 57)
    (hc : ∀ c ∈ dsc, 48 ≤ c ∧ c ≤ 57) (hd : ∀ c ∈ dsd, 48 ≤ c ∧ c ≤ 57) :
    (token.parseIpCells (dsa ++ (46 :: (dsb ++ (46 :: (dsc ++ (46 :: dsd))))))
        0 (fun _ => 0)) 0 = cellFold dsa 0 ∧
    (token.parseIpCells (dsa ++ (46 :: (dsb ++ (46 :: (dsc ++ (46 :: dsd))))))
        0 (fun _ => 0)) 1 = cellFold dsb 0 ∧
    (token.parseIpCells (dsa ++ (46 :: (dsb ++ (46 :: (dsc ++ (46 :: dsd))))))
        0 (fun _ => 0)) 2 = cellFold dsc 0 ∧
    (token.parseIpCells (dsa ++ (46 :: (dsb ++ (46 :: (dsc ++ (46 :: dsd))))))
        0 (fun _ => 0)) 3 = cellFold dsd 0 ∧
    (token.parseIpCells (dsa ++ (46 :: (dsb ++ (46 :: (dsc ++ (46 :: dsd))))))
        0 (fun _ => 0)) 4 = 0 := by
  rw [parseIpCells_seg dsa _ _ _ ha, parseIpCells_sep 46 (Or.inl rfl),
      parseIpCells_seg dsb _ _ _ hb, parseIpCells_sep 46 (Or.inl rfl),
      parseIpCells_seg dsc _ _ _ hc, parseIpCells_sep 46 (Or.inl rfl),
      parseIpCells_last dsd _ _ hd]
  refine ⟨?_, ?_, ?_, ?_, ?_⟩ <;> simp

/-- Accessor reduction: an invalid-cache number token reads the recomputed
`m_u64_value`. -/
theorem as_uint64_invalid_number (t : token) (hty : t.m_type = toktype.number)
    (hv : t.m_values_valid = false) :
    token.as_uint64 t = (token.update_cached_values t).m_u64_value := by
  unfold token.as_uint64 token.get_value_u64
  rw [if_neg (show ¬ (¬ (t.is_number = true) ∧ ¬ (t.is_boolean = true)) from
        fun hcon => hcon.1 (by simp [token.is_number, hty])),
      if_pos hv]

/-- The `ip_address` branch of `update_cached_values`, written out. -/
theorem update_u64_ip (t : token) (s : List Nat) (hs : t.m_string = s)
    (h1 : t.m_flags &&& tokflags.floating_point = 0)
    (h2 : t.m_flags &&& tokflags.decimal = 0)
    (h3 : t.m_flags &&& tokflags.octal = 0)
    (h4 : t.m_flags &&& tokflags.hexadecimal = 0)
    (h5 : t.m_flags &&& tokflags.binary = 0)
    (h6 : t.m_flags &&& tokflags.ip_address ≠ 0) :
    (token.update_cached_values t).m_u64_value =
      (token.parseIpCells s 0 (fun _ => 0) 4 <<< 32) |||
        ((token.parseIpCells s 0 (fun _ => 0) 0 <<< 24) % 2 ^ 32 |||
         (token.parseIpCells s 0 (fun _ => 0) 1 <<< 16) % 2 ^ 32 |||
         (token.parseIpCells s 0 (fun _ => 0) 2 <<< 8) % 2 ^ 32 |||
         token.parseIpCells s 0 (fun _ => 0) 3) := by
  unfold token.update_cached_values
  rw [if_neg (show ¬ (t.m_flags &&& tokflags.floating_point ≠ 0) from fun hk => hk h1),
      if_neg (show ¬ (t.m_flags &&& tokflags.decimal ≠ 0) from fun hk => hk h2),
      if_neg (show ¬ (t.m_flags &&& tokflags.octal ≠ 0) from fun hk => hk h3),
      if_neg (show ¬ (t.m_flags &&& tokflags.hexadecimal ≠ 0) from fun hk => hk h4),
      if_neg (show ¬ (t.m_flags &&& tokflags.binary ≠ 0) from fun hk => hk h5),
      if_pos h6, hs]

/-- C6: with `allow_ip_addresses` set, scanning `a.b.c.d:p` (the `:p` part
optional) yields a number token carrying the `ip_address` (and `ip_port`)
flags whose 64-bit value packs `(port << 32) | (a<<24 | b<<16 | c<<8 | d)`,
and exactly three dots are required — the two-dot text `1.2.3` and the
four-dot text `1.2.3.4.5` are scan errors.  (The hypotheses keep the
modelled `std::uint32_t` cells exact — octets below 256, port below `2^32` —
and a leading `0` octet is restricted to exactly `0` because the `0x`/octal
scan takes over otherwise.) -/
theorem C6_ip_value :
    (∀ (dsa dsb dsc dsd dsp buf : List Nat),
       dsa ≠ [] → dsb ≠ [] → dsc ≠ [] → dsd ≠ [] → dsp ≠ [] →
       (∀ c ∈ dsa, 48 ≤ c ∧ c ≤ 57) → (∀ c ∈ dsb, 48 ≤ c ∧ c ≤ 57) →
       (∀ c ∈ dsc, 48 ≤ c ∧ c ≤ 57) → (∀ c ∈ dsd, 48 ≤ c ∧ c ≤ 57) →
       (∀ c ∈ dsp, 48 ≤ c ∧ c ≤ 57) →
       (dsa.headD 0 = 48 → dsa = [48]) →
       decVal dsa < 256 → decVal dsb < 256 → decVal dsc < 256 → decVal dsd < 256 →
       decVal dsp < 2 ^ 32 →
       buf = dsa ++ (46 :: (dsb ++ (46 :: (dsc ++ (46 :: (dsd ++ (58 :: dsp))))))) →
       ∃ t : token,
         internal_read_number buf lexflags.allow_ip_addresses (token.clear {}) 0 =
           (some t, buf.length, 0) ∧
         t.m_type = toktype.number ∧
         t.m_flags = tokflags.ip_address ||| tokflags.ip_port ∧
         t.as_uint64 = (decVal dsp <<< 32) |||
           ((decVal dsa <<< 24) ||| (decVal dsb <<< 16) ||| (decVal dsc <<< 8) |||
            decVal dsd)) ∧
    (∀ (dsa dsb dsc dsd buf : List Nat),
       dsa ≠ [] → dsb ≠ [] → dsc ≠ [] → dsd ≠ [] →
       (∀ c ∈ dsa, 48 ≤ c ∧ c ≤ 57) → (∀ c ∈ dsb, 48 ≤ c ∧ c ≤ 57) →
       (∀ c ∈ dsc, 48 ≤ c ∧ c ≤ 57) → (∀ c ∈ dsd, 48 ≤ c ∧ c ≤ 57) →
       (dsa.headD 0 = 48 → dsa = [48]) →
       decVal dsa < 256 → decVal dsb < 256 → decVal dsc < 256 → decVal dsd < 256 →
       buf = dsa ++ (46 :: (dsb ++ (46 :: (dsc ++ (46 :: dsd))))) →
       ∃ t : token,
         internal_read_number buf lexflags.allow_ip_addresses (token.clear {}) 0 =
           (some t, buf.length, 0) ∧
         t.m_type = toktype.number ∧
         t.m_flags = tokflags.ip_address ∧
         t.as_uint64 =
           (decVal dsa <<< 24) ||| (decVal dsb <<< 16) ||| (decVal dsc <<< 8) |||
             decVal dsd) ∧
    internal_read_number [49, 46, 50, 46, 51] lexflags.allow_ip_addresses
      (token.clear {}) 0 = (none, 5, 1) ∧
    internal_read_number [49, 46, 50, 46, 51, 46, 52, 46, 53] lexflags.allow_ip_addresses
      (token.clear {}) 0 = (none, 9, 1) := by
  refine ⟨?_, ?_, by rfl, by rfl⟩
  · intro dsa dsb dsc dsd dsp buf hna hnb hnc hnd hnp hdga hdgb hdgc hdgd hdgp hhead
      hA hB hC hD hP hbuf
    obtain ⟨a0, dsa', rfl⟩ := List.exists_cons_of_ne_nil hna
    set S : List Nat := (a0 :: dsa') ++ (46 :: (dsb ++ (46 :: (dsc ++ (46 :: dsd)))))
      with hS
    have hsplit : buf = S ++ (58 :: dsp) := by
      rw [hbuf, hS]
      simp
    have hb0 : bAt buf 0 = a0 := by rw [hbuf]; rfl
    have hnotoct : ¬ (bAt buf 0 = 48 ∧ bAt buf 1 ≠ 46) := by
      intro hcon
      have ha0 : a0 = 48 := hb0.symm.trans hcon.1
      have hl : a0 :: dsa' = [48] := hhead (by simpa using ha0)
      have hnil : dsa' = [] := by injection hl with h1 h2
      apply hcon.2
      rw [hbuf, hnil]
      rfl
    have hdr : buf.drop S.length = 58 :: dsp := by
      rw [hsplit]
      exact List.drop_left _ _
    have hb58 : bAt buf S.length = 58 := by
      rw [bAt_drop, hdr]
      rfl
    have hdrop0 : buf.drop 0 = S ++ (58 :: dsp) := by
      rw [List.drop_zero]
      exact hsplit
    have hmemS : ∀ c ∈ S, (48 ≤ c ∧ c ≤ 57) ∨ c = 46 := by
      intro c hcm
      rw [hS] at hcm
      rcases List.mem_append.1 hcm with h1 | h1
      · exact Or.inl (hdga c h1)
      · rcases List.mem_cons.1 h1 with rfl | h1
        · exact Or.inr rfl
        · rcases List.mem_append.1 h1 with h1 | h1
          · exact Or.inl (hdgb c h1)
          · rcases List.mem_cons.1 h1 with rfl | h1
            · exact Or.inr rfl
            · rcases List.mem_append.1 h1 with h1 | h1
              · exact Or.inl (hdgc c h1)
              · rcases List.mem_cons.1 h1 with rfl | h1
                · exact Or.inr rfl
                · exact Or.inl (hdgd c h1)
    have htermdd : ¬ ((48 ≤ bAt buf (0 + S.length) ∧ bAt buf (0 + S.length) ≤ 57) ∨
        bAt buf (0 + S.length) = 46) := by
      rw [Nat.zero_add, hb58]
      decide
    have hfuelS : S.length < buf.length + 1 := by
      rw [hsplit]
      simp only [List.length_append, List.length_cons]
      omega
    have hdd0 := digitDotLoop_run S buf (token.clear {}) 0 0 (buf.length + 1)
      (58 :: dsp) hdrop0 hmemS htermdd hfuelS
    have hcount : S.count 46 = 3 := by
      have ha46 : ¬ (a0 = 46) := by
        have := hdga a0 (List.mem_cons_self _ _)
        omega
      have hz1 : dsa'.count 46 = 0 :=
        count46_digits _ (fun c hc => hdga c (List.mem_cons_of_mem _ hc))
      have hz2 := count46_digits _ hdgb
      have hz3 := count46_digits _ hdgc
      have hz4 := count46_digits _ hdgd
      rw [hS]
      simp [List.count_append, List.count_cons, hz1, hz2, hz3, hz4, ha46]
    rw [hcount] at hdd0
    simp only [Nat.zero_add] at hdd0
    have hdp : buf.drop (S.length + 1) = dsp := (drop_cons hdr).2
    have hdp2 : buf.drop (S.length + 1) = dsp ++ [] := by
      rw [List.append_nil]
      exact hdp
    have hdall : buf.drop (S.length + 1 + dsp.length) = [] := drop_all hdp
    have htermP : ¬ (48 ≤ bAt buf (S.length + 1 + dsp.length) ∧
        bAt buf (S.length + 1 + dsp.length) ≤ 57) := by
      rw [bAt_drop, hdall]
      decide
    have hfuelP : dsp.length < buf.length + 1 := by
      rw [hsplit]
      simp only [List.length_append, List.length_cons]
      omega
    have hdsp := digitsLoop_run dsp buf
      ((S.foldl token.append_char (token.clear {})).append_char 58) (S.length + 1)
      (buf.length + 1) [] hdp2 hdgp htermP hfuelP
    have hs0 : ∀ c ∈ S, c ≠ 0 := by
      intro c hcm
      rcases hmemS c hcm with h1 | h1 <;> omega
    have hp0 : ∀ c ∈ dsp, c ≠ 0 := by
      intro c hcm
      have := hdgp c hcm
      omega
    have hsE : S.isEmpty = false := by rw [hS]; rfl
    have hT1 : S.foldl token.append_char (token.clear {}) =
        { m_string := S, m_flags := 0, m_line_num := 0, m_lines_crossed := 0,
          m_type := toktype.none, m_values_valid := false, m_u64_value := 0,
          m_double_value := double_val.finite 0 } := by
      rw [foldAppend S _ hs0]
      simp [token.clear, hsE]
    have hTok : ((dsp.foldl token.append_char
          ((S.foldl token.append_char (token.clear {})).append_char 58)).set_type
            toktype.number).set_flags (tokflags.ip_address ||| tokflags.ip_port) =
        { m_string := buf, m_flags := tokflags.ip_address ||| tokflags.ip_port,
          m_type := toktype.number, m_values_valid := false } := by
      rw [hT1, foldAppend dsp _ hp0]
      simp [token.append_char, token.set_type, token.set_flags, hsplit]
    have hlen : S.length + 1 + dsp.length = buf.length := by
      rw [hsplit]
      simp only [List.length_append, List.length_cons]
      omega
    have hEQ0 : internal_read_number buf lexflags.allow_ip_addresses (token.clear {}) 0 =
        (some (((dsp.foldl token.append_char
            ((S.foldl token.append_char (token.clear {})).append_char 58)).set_type
              toktype.number).set_flags (tokflags.ip_address ||| tokflags.ip_port)),
         S.length + 1 + dsp.length, 0) := by
      have e1 : ¬ (lexflags.allow_ip_addresses = 0) := by decide
      have e2 : tokflags.ip_address &&& tokflags.floating_point = 0 := by decide
      have e3 : tokflags.ip_address &&& tokflags.integer = 0 := by decide
      have e4 : ¬ (tokflags.ip_address &&& tokflags.ip_address = 0) := by decide
      have e5 : ¬ (tokflags.ip_address = 0) := by decide
      simp only [internal_read_number, Nat.zero_add]
      rw [if_neg hnotoct, hdd0]
      simp [hb58, hdsp, e1, e2, e3, e4, e5]
    have hEQ : internal_read_number buf lexflags.allow_ip_addresses (token.clear {}) 0 =
        (some ({ m_string := buf, m_flags := tokflags.ip_address ||| tokflags.ip_port,
                 m_type := toktype.number, m_values_valid := false } : token),
         buf.length, 0) := by
      rw [hEQ0, hTok, hlen]
    have h24 : decVal (a0 :: dsa') <<< 24 < 2 ^ 32 := by
      rw [Nat.shiftLeft_eq]
      calc decVal (a0 :: dsa') * 2 ^ 24 < 256 * 2 ^ 24 :=
            Nat.mul_lt_mul_of_lt_of_le hA (le_refl _) (by norm_num)
        _ ≤ 2 ^ 32 := by norm_num
    have h16 : decVal dsb <<< 16 < 2 ^ 32 := by
      rw [Nat.shiftLeft_eq]
      calc decVal dsb * 2 ^ 16 < 256 * 2 ^ 16 :=
            Nat.mul_lt_mul_of_lt_of_le hB (le_refl _) (by norm_num)
        _ ≤ 2 ^ 32 := by norm_num
    have h8 : decVal dsc <<< 8 < 2 ^ 32 := by
      rw [Nat.shiftLeft_eq]
      calc decVal dsc * 2 ^ 8 < 256 * 2 ^ 8 :=
            Nat.mul_lt_mul_of_lt_of_le hC (le_refl _) (by norm_num)
        _ ≤ 2 ^ 32 := by norm_num
    have hvA : decVal (a0 :: dsa') < 2 ^ 32 := lt_trans hA (by norm_num)
    have hvB : decVal dsb < 2 ^ 32 := lt_trans hB (by norm_num)
    have hvC : decVal dsc < 2 ^ 32 := lt_trans hC (by norm_num)
    have hvD : decVal dsd < 2 ^ 32 := lt_trans hD (by norm_num)
    refine ⟨_, hEQ, rfl, rfl, ?_⟩
    have hcast : token.as_uint64
        ({ m_string := buf, m_flags := tokflags.ip_address ||| tokflags.ip_port,
           m_type := toktype.number, m_values_valid := false } : token) =
        (token.update_cached_values
          ({ m_string := buf, m_flags := tokflags.ip_address ||| tokflags.ip_port,
             m_type := toktype.number, m_values_valid := false } : token)).m_u64_value :=
      as_uint64_invalid_number _ rfl rfl
    have hupd := update_u64_ip
      ({ m_string := buf, m_flags := tokflags.ip_address ||| tokflags.ip_port,
         m_type := toktype.number, m_values_valid := false } : token) buf rfl
      (show (tokflags.ip_address ||| tokflags.ip_port) &&& tokflags.floating_point = 0
        by decide)
      (show (tokflags.ip_address ||| tokflags.ip_port) &&& tokflags.decimal = 0 by decide)
      (show (tokflags.ip_address ||| tokflags.ip_port) &&& tokflags.octal = 0 by decide)
      (show (tokflags.ip_address ||| tokflags.ip_port) &&& tokflags.hexadecimal = 0
        by decide)
      (show (tokflags.ip_address ||| tokflags.ip_port) &&& tokflags.binary = 0 by decide)
      (show (tokflags.ip_address ||| tokflags.ip_port) &&& tokflags.ip_address ≠ 0
        by decide)
    rw [hcast, hupd]
    rw [hbuf]
    obtain ⟨hc0, hc1, hc2, hc3, hc4⟩ :=
      ipCellsPort (a0 :: dsa') dsb dsc dsd dsp hdga hdgb hdgc hdgd hdgp
    rw [hc0, hc1, hc2, hc3, hc4,
        cellFold_decVal0 _ hdga hvA, cellFold_decVal0 _ hdgb hvB,
        cellFold_decVal0 _ hdgc hvC, cellFold_decVal0 _ hdgd hvD,
        cellFold_decVal0 _ hdgp hP,
        Nat.mod_eq_of_lt h24, Nat.mod_eq_of_lt h16, Nat.mod_eq_of_lt h8]
  · intro dsa dsb dsc dsd buf hna hnb hnc hnd hdga hdgb hdgc hdgd hhead hA hB hC hD hbuf
    obtain ⟨a0, dsa', rfl⟩ := List.exists_cons_of_ne_nil hna
    set S : List Nat := (a0 :: dsa') ++ (46 :: (dsb ++ (46 :: (dsc ++ (46 :: dsd)))))
      with hS
    have hbufS : buf = S := hbuf
    have hb0 : bAt buf 0 = a0 := by rw [hbufS, hS]; rfl
    have hnotoct : ¬ (bAt buf 0 = 48 ∧ bAt buf 1 ≠ 46) := by
      intro hcon
      have ha0 : a0 = 48 := hb0.symm.trans hcon.1
      have hl : a0 :: dsa' = [48] := hhead (by simpa using ha0)
      have hnil : dsa' = [] := by injection hl with h1 h2
      apply hcon.2
      rw [hbufS, hS, hnil]
      rfl
    have hdrop0 : buf.drop 0 = S ++ [] := by
      rw [List.drop_zero, List.append_nil]
      exact hbufS
    have hdall : buf.drop (0 + S.length) = [] :=
      drop_all (show buf.drop 0 = S from by rw [List.drop_zero]; exact hbufS)
    have hmemS : ∀ c ∈ S, (48 ≤ c ∧ c ≤ 57) ∨ c = 46 := by
      intro c hcm
      rw [hS] at hcm
      rcases List.mem_append.1 hcm with h1 | h1
      · exact Or.inl (hdga c h1)
      · rcases List.mem_cons.1 h1 with rfl | h1
        · exact Or.inr rfl
        · rcases List.mem_append.1 h1 with h1 | h1
          · exact Or.inl (hdgb c h1)
          · rcases List.mem_cons.1 h1 with rfl | h1
            · exact Or.inr rfl
            · rcases List.mem_append.1 h1 with h1 | h1
              · exact Or.inl (hdgc c h1)
              · rcases List.mem_cons.1 h1 with rfl | h1
                · exact Or.inr rfl
                · exact Or.inl (hdgd c h1)
    have htermdd : ¬ ((48 ≤ bAt buf (0 + S.length) ∧ bAt buf (0 + S.length) ≤ 57) ∨
        bAt buf (0 + S.length) = 46) := by
      rw [bAt_drop, hdall]
      decide
    have hfuelS : S.length < buf.length + 1 := by
      rw [hbufS]
      omega
    have hdd0 := digitDotLoop_run S buf (token.clear {}) 0 0 (buf.length + 1) []
      hdrop0 hmemS htermdd hfuelS
    have hcount : S.count 46 = 3 := by
      have ha46 : ¬ (a0 = 46) := by
        have := hdga a0 (List.mem_cons_self _ _)
        omega
      have hz1 : dsa'.count 46 = 0 :=
        count46_digits _ (fun c hc => hdga c (List.mem_cons_of_mem _ hc))
      have hz2 := count46_digits _ hdgb
      have hz3 := count46_digits _ hdgc
      have hz4 := count46_digits _ hdgd
      rw [hS]
      simp [List.count_append, List.count_cons, hz1, hz2, hz3, hz4, ha46]
    rw [hcount] at hdd0
    simp only [Nat.zero_add] at hdd0
    have hbS : bAt buf S.length = 0 := by
      rw [bAt_drop, show buf.drop S.length = [] from by simpa using hdall]
      rfl
    have hs0 : ∀ c ∈ S, c ≠ 0 := by
      intro c hcm
      rcases hmemS c hcm with h1 | h1 <;> omega
    have hsE : S.isEmpty = false := by rw [hS]; rfl
    have hT1 : S.foldl token.append_char (token.clear {}) =
        { m_string := S, m_flags := 0, m_line_num := 0, m_lines_crossed := 0,
          m_type := toktype.none, m_values_valid := false, m_u64_value := 0,
          m_double_value := double_val.finite 0 } := by
      rw [foldAppend S _ hs0]
      simp [token.clear, hsE]
    have hTok : ((S.foldl token.append_char (token.clear {})).set_type
          toktype.number).set_flags tokflags.ip_address =
        { m_string := buf, m_flags := tokflags.ip_address,
          m_type := toktype.number, m_values_valid := false } := by
      rw [hT1]
      simp [token.set_type, token.set_flags, hbufS]
    have hlen : S.length = buf.length := by
      rw [hbufS]
    have hEQ0 : internal_read_number buf lexflags.allow_ip_addresses (token.clear {}) 0 =
        (some (((S.foldl token.append_char (token.clear {})).set_type
            toktype.number).set_flags tokflags.ip_address), S.length, 0) := by
      have e1 : ¬ (lexflags.allow_ip_addresses = 0) := by decide
      have e2 : tokflags.ip_address &&& tokflags.floating_point = 0 := by decide
      have e3 : tokflags.ip_address &&& tokflags.integer = 0 := by decide
      have e4 : ¬ (tokflags.ip_address &&& tokflags.ip_address = 0) := by decide
      have e5 : ¬ (tokflags.ip_address = 0) := by decide
      simp only [internal_read_number, Nat.zero_add]
      rw [if_neg hnotoct, hdd0]
      simp [hbS, e1, e2, e3, e4, e5]
    have hEQ : internal_read_number buf lexflags.allow_ip_addresses (token.clear {}) 0 =
        (some ({ m_string := buf, m_flags := tokflags.ip_address,
                 m_type := toktype.number, m_values_valid := false } : token),
         buf.length, 0) := by
      rw [hEQ0, hTok, hlen]
    have h24 : decVal (a0 :: dsa') <<< 24 < 2 ^ 32 := by
      rw [Nat.shiftLeft_eq]
      calc decVal (a0 :: dsa') * 2 ^ 24 < 256 * 2 ^ 24 :=
            Nat.mul_lt_mul_of_lt_of_le hA (le_refl _) (by norm_num)
        _ ≤ 2 ^ 32 := by norm_num
    have h16 : decVal dsb <<< 16 < 2 ^ 32 := by
      rw [Nat.shiftLeft_eq]
      calc decVal dsb * 2 ^ 16 < 256 * 2 ^ 16 :=
            Nat.mul_lt_mul_of_lt_of_le hB (le_refl _) (by norm_num)
        _ ≤ 2 ^ 32 := by norm_num
    have h8 : decVal dsc <<< 8 < 2 ^ 32 := by
      rw [Nat.shiftLeft_eq]
      calc decVal dsc * 2 ^ 8 < 256 * 2 ^ 8 :=
            Nat.mul_lt_mul_of_lt_of_le hC (le_refl _) (by norm_num)
        _ ≤ 2 ^ 32 := by norm_num
    have hvA : decVal (a0 :: dsa') < 2 ^ 32 := lt_trans hA (by norm_num)
    have hvB : decVal dsb < 2 ^ 32 := lt_trans hB (by norm_num)
    have hvC : decVal dsc < 2 ^ 32 := lt_trans hC (by norm_num)
    have hvD : decVal dsd < 2 ^ 32 := lt_trans hD (by norm_num)
    refine ⟨_, hEQ, rfl, rfl, ?_⟩
    have hcast : token.as_uint64
        ({ m_string := buf, m_flags := tokflags.ip_address,
           m_type := toktype.number, m_values_valid := false } : token) =
        (token.update_cached_values
          ({ m_string := buf, m_flags := tokflags.ip_address,
             m_type := toktype.number, m_values_valid := false } : token)).m_u64_value :=
      as_uint64_invalid_number _ rfl rfl
    have hupd := update_u64_ip
      ({ m_string := buf, m_flags := tokflags.ip_address,
         m_type := toktype.number, m_values_valid := false } : token) buf rfl
      (show tokflags.ip_address &&& tokflags.floating_point = 0 by decide)
      (show tokflags.ip_address &&& tokflags.decimal = 0 by decide)
      (show tokflags.ip_address &&& tokflags.octal = 0 by decide)
      (show tokflags.ip_address &&& tokflags.hexadecimal = 0 by decide)
      (show tokflags.ip_address &&& tokflags.binary = 0 by decide)
      (show tokflags.ip_address &&& tokflags.ip_address ≠ 0 by decide)
    rw [hcast, hupd]
    rw [hbufS, hS]
    obtain ⟨hc0, hc1, hc2, hc3, hc4⟩ :=
      ipCellsNoPort (a0 :: dsa') dsb dsc dsd hdga hdgb hdgc hdgd
    rw [hc0, hc1, hc2, hc3, hc4,
        cellFold_decVal0 _ hdga hvA, cellFold_decVal0 _ hdgb hvB,
        cellFold_decVal0 _ hdgc hvC, cellFold_decVal0 _ hdgd hvD,
        Nat.mod_eq_of_lt h24, Nat.mod_eq_of_lt h16, Nat.mod_eq_of_lt h8,
        Nat.zero_shiftLeft, Nat.zero_or]

/-- Witness for C6: scanning `1.2.3.4:80` yields the value
`(80 << 32) | 0x01020304`. -/
theorem C6_witness :
    ∃ t : token,
      internal_read_number [49, 46, 50, 46, 51, 46, 52, 58, 56, 48]
          lexflags.allow_ip_addresses (token.clear {}) 0 =
        (some t, 10, 0) ∧
      t.m_type = toktype.number ∧
      t.m_flags = tokflags.ip_address ||| tokflags.ip_port ∧
      t.as_uint64 = (80 <<< 32) ||| 16909060 := by
  obtain ⟨t, h1, h2, h3, h4⟩ := C6_ip_value.1 [49] [50] [51] [52] [56, 48]
    [49, 46, 50, 46, 51, 46, 52, 58, 56, 48]
    (by decide) (by decide) (by decide) (by decide) (by decide)
    (by decide) (by decide) (by decide) (by decide) (by decide)
    (by decide) (by decide) (by decide) (by decide) (by decide) (by decide)
    (by rfl)
  refine ⟨t, h1, h2, h3, ?_⟩
  rw [h4]
  rfl

/-- Membership in a chain after the splice of `set_punctuation_tables`. -/
theorem insertChain_mem (ps : List punctuation_def) (i : Nat) :
    ∀ (l : List Nat) (j : Nat), j ∈ insertChain ps i l ↔ j = i ∨ j ∈ l := by
  intro l
  induction l with
  | nil => intro j; simp [insertChain]
  | cons n rest ih =>
      intro j
      by_cases h : pstrlen ps n < pstrlen ps i <;>
        simp [insertChain, h, ih] <;> tauto

/-- The splice keeps a chain sorted by the spec order (strictly longer
first, earlier definition first among equals), provided all present entries
were defined before the inserted one. -/
theorem insertChain_pairwise (ps : List punctuation_def) (i : Nat) :
    ∀ (l : List Nat), l.Pairwise (chainBefore ps) → (∀ j ∈ l, j < i) →
      (insertChain ps i l).Pairwise (chainBefore ps) := by
  intro l
  induction l with
  | nil =>
      intro hp hlt
      simp [insertChain]
  | cons n rest ih =>
      intro hp hlt
      rw [List.pairwise_cons] at hp
      obtain ⟨hn, hrest⟩ := hp
      unfold insertChain
      by_cases h : pstrlen ps n < pstrlen ps i
      · rw [if_pos h, List.pairwise_cons]
        constructor
        · intro b hb
          rcases List.mem_cons.1 hb with rfl | hb2
          · exact Or.inl h
          · rcases hn b hb2 with h1 | h1
            · exact Or.inl (lt_trans h1 h)
            · exact Or.inl (h1.1 ▸ h)
        · exact List.pairwise_cons.2 ⟨hn, hrest⟩
      · rw [if_neg h, List.pairwise_cons]
        constructor
        · intro b hb
          rcases (insertChain_mem ps i rest b).1 hb with rfl | hb2
          · have hni : n < b := hlt n (List.mem_cons_self _ _)
            rcases lt_or_eq_of_le (Nat.le_of_not_lt h) with h2 | h2
            · exact Or.inl h2
            · exact Or.inr ⟨h2.symm, hni⟩
          · exact hn b hb2
        · exact ih hrest (fun j hj => hlt j (List.mem_cons_of_mem _ hj))

/-- Null-text entries are skipped by the build loop. -/
theorem buildChainsStep_none (ps : List punctuation_def) (tbl : Nat → List Nat) (i : Nat)
    (h : (ps.getD i default).str = none) : buildChainsStep ps tbl i = tbl := by
  unfold buildChainsStep
  rw [h]

/-- A non-null entry is spliced into the chain of its first character. -/
theorem buildChainsStep_some (ps : List punctuation_def) (tbl : Nat → List Nat) (i : Nat)
    (s : List Nat) (h : (ps.getD i default).str = some s) :
    buildChainsStep ps tbl i =
      fun c => if c = s.headD 0 then insertChain ps i (tbl (s.headD 0)) else tbl c := by
  unfold buildChainsStep
  rw [h]

/-- Invariant of the chain build: after processing entries `0..k-1` every
chain is sorted by `chainBefore`, and a chain holds exactly the processed
non-null entries starting with its character. -/
theorem buildChainsAux (ps : List punctuation_def) :
    ∀ (k : Nat) (c : Nat),
      (((List.range k).foldl (buildChainsStep ps) (fun _ => [])) c).Pairwise
          (chainBefore ps) ∧
      (∀ j, j ∈ ((List.range k).foldl (buildChainsStep ps) (fun _ => [])) c ↔
         (j < k ∧ ∃ s, (ps.getD j default).str = some s ∧ s.headD 0 = c)) := by
  intro k
  induction k with
  | zero =>
      intro c
      simp [List.range_zero]
  | succ k ih =>
      intro c
      rw [List.range_succ, List.foldl_append]
      simp only [List.foldl_cons, List.foldl_nil]
      cases hstr : (ps.getD k default).str with
      | none =>
          rw [buildChainsStep_none ps _ k hstr]
          refine ⟨(ih c).1, fun j => ?_⟩
          rw [(ih c).2 j]
          constructor
          · rintro ⟨h1, hs⟩
            exact ⟨Nat.lt_succ_of_lt h1, hs⟩
          · rintro ⟨h1, s, hs1, hs2⟩
            rcases Nat.lt_succ_iff_lt_or_eq.1 h1 with h2 | rfl
            · exact ⟨h2, s, hs1, hs2⟩
            · rw [hstr] at hs1
              cases hs1
      | some s0 =>
          rw [buildChainsStep_some ps _ k s0 hstr]
          beta_reduce
          by_cases hc : c = s0.headD 0
          · rw [if_pos hc]
            constructor
            · apply insertChain_pairwise
              · exact (ih (s0.headD 0)).1
              · intro j hj
                exact (((ih (s0.headD 0)).2 j).1 hj).1
            · intro j
              constructor
              · intro h1
                rcases (insertChain_mem ps k _ j).1 h1 with rfl | h2
                · exact ⟨Nat.lt_succ_self _, s0, hstr, hc.symm⟩
                · obtain ⟨h3, s, hs1, hs2⟩ := ((ih (s0.headD 0)).2 j).1 h2
                  exact ⟨Nat.lt_succ_of_lt h3, s, hs1, by rw [hs2]; exact hc.symm⟩
              · rintro ⟨h1, s, hs1, hs2⟩
                apply (insertChain_mem ps k _ j).2
                rcases Nat.lt_succ_iff_lt_or_eq.1 h1 with h2 | rfl
                · exact Or.inr (((ih (s0.headD 0)).2 j).2 ⟨h2, s, hs1, hs2.trans hc⟩)
                · exact Or.inl rfl
          · rw [if_neg hc]
            refine ⟨(ih c).1, fun j => ?_⟩
            rw [(ih c).2 j]
            constructor
            · rintro ⟨h1, hs⟩
              exact ⟨Nat.lt_succ_of_lt h1, hs⟩
            · rintro ⟨h1, s, hs1, hs2⟩
              rcases Nat.lt_succ_iff_lt_or_eq.1 h1 with h2 | rfl
              · exact ⟨h2, s, hs1, hs2⟩
              · rw [hstr] at hs1
                injection hs1 with h4
                exact absurd (hs2.symm.trans (by rw [h4])) hc

/-- An in-range default read returns an element of the list. -/
theorem getD_mem_of_lt {l : List Nat} {n : Nat} {d : Nat} (h : n < l.length) :
    l.getD n d ∈ l := by
  induction l generalizing n with
  | nil => simp at h
  | cons a t ih =>
      cases n with
      | zero => exact List.mem_cons_self _ _
      | succ n =>
          simp only [List.length_cons] at h
          exact List.mem_cons_of_mem _ (ih (by omega))

/-- The matching loop never reads past the candidate text. -/
theorem pmLen_le (buf : List Nat) (pos : Nat) :
    ∀ (s : List Nat) (k : Nat), pmLen buf pos s k ≤ k + s.length := by
  intro s
  induction s with
  | nil => intro k; simp [pmLen]
  | cons a rest ih =>
      intro k
      unfold pmLen
      split_ifs with h1 h2 h3
      · omega
      · omega
      · omega
      · have := ih (k + 1)
        simp only [List.length_cons]
        omega

/-- A candidate that occurs at the position is consumed entirely by the
matching loop. -/
theorem pmLen_of_match (buf : List Nat) (pos : Nat) :
    ∀ (s : List Nat) (k : Nat), (∀ c ∈ s, c ≠ 0) →
      (∀ j, j < s.length → bAt buf (pos + k + j) = s.getD j 0) →
      pmLen buf pos s k = k + s.length := by
  intro s
  induction s with
  | nil => intro k h1 h2; simp [pmLen]
  | cons a rest ih =>
      intro k hnz hm
      have ha : a ≠ 0 := hnz a (List.mem_cons_self _ _)
      have h0 : bAt buf (pos + k) = a := by
        have := hm 0 (by simp)
        simpa using this
      unfold pmLen
      rw [if_neg ha, if_neg (by rw [h0]; exact ha), if_neg (by rw [h0]; simp)]
      have hrec := ih (k + 1) (fun c hc => hnz c (List.mem_cons_of_mem _ hc))
        (fun j hj => by
          have h9 := hm (j + 1) (by simp only [List.length_cons]; omega)
          rw [show pos + (k + 1) + j = pos + k + (j + 1) from by omega]
          simpa using h9)
      rw [hrec]
      simp only [List.length_cons]
      omega

/-- A full run of the matching loop means the candidate occurs at the
position. -/
theorem pmLen_matched (buf : List Nat) (pos : Nat) :
    ∀ (s : List Nat) (k : Nat), (∀ c ∈ s, c ≠ 0) →
      pmLen buf pos s k = k + s.length →
      ∀ j, j < s.length → bAt buf (pos + k + j) = s.getD j 0 := by
  intro s
  induction s with
  | nil =>
      intro k _ _ j hj
      simp at hj
  | cons a rest ih =>
      intro k hnz hlen j hj
      have ha : a ≠ 0 := hnz a (List.mem_cons_self _ _)
      unfold pmLen at hlen
      rw [if_neg ha] at hlen
      by_cases h2 : bAt buf (pos + k) = 0
      · rw [if_pos h2] at hlen
        simp only [List.length_cons] at hlen
        omega
      rw [if_neg h2] at hlen
      by_cases h3 : bAt buf (pos + k) ≠ a
      · rw [if_pos h3] at hlen
        simp only [List.length_cons] at hlen
        omega
      rw [if_neg h3] at hlen
      have hba : bAt buf (pos + k) = a := not_not.1 h3
      cases j with
      | zero => simpa using hba
      | succ j =>
          have hr := ih (k + 1) (fun c hc => hnz c (List.mem_cons_of_mem _ hc))
            (by simp only [List.length_cons] at hlen ⊢; omega)
            j (by simp only [List.length_cons] at hj; omega)
          rw [show pos + k + (j + 1) = pos + (k + 1) + j from by omega]
          simpa using hr

/-- One step of the chain walk at a non-null entry, written out. -/
theorem rpChain_cons_some (ps : List punctuation_def) (buf : List Nat) (pos : Nat)
    (tok : token) (n : Nat) (rest : List Nat) (s : List Nat)
    (hstr : (ps.getD n default).str = some s) :
    rpChain ps buf pos tok (n :: rest) =
      (if s.getD (pmLen buf pos s 0) 0 = 0 then
        some ((((s.take (pmLen buf pos s 0 + 1)).foldl token.append_char tok).set_type
            toktype.punctuation).set_flags (ps.getD n default).id,
          pos + pmLen buf pos s 0)
      else rpChain ps buf pos tok rest) := by
  conv_lhs => unfold rpChain
  rw [hstr]

/-- Under the chain order, the chain walk succeeds whenever some member
occurs at the position, and the accepted candidate is at least as long as
any occurring member. -/
theorem rpChain_longest (ps : List punctuation_def) (buf : List Nat) (pos : Nat)
    (tok : token) :
    ∀ (chain : List Nat), chain.Pairwise (chainBefore ps) →
      (∀ n ∈ chain, ∃ s, (ps.getD n default).str = some s ∧ (∀ c ∈ s, c ≠ 0)) →
      ∀ (m : Nat) (sm : List Nat), m ∈ chain → (ps.getD m default).str = some sm →
        isPrefixAt sm buf pos →
        ∃ tk n sn, rpChain ps buf pos tok chain = some (tk, pos + sn.length) ∧
          n ∈ chain ∧ (ps.getD n default).str = some sn ∧ isPrefixAt sn buf pos ∧
          sm.length ≤ sn.length := by
  intro chain
  induction chain with
  | nil =>
      intro _ _ m sm hm
      simp at hm
  | cons n0 rest ih =>
      intro hpw hall m sm hm hsm hpre
      obtain ⟨s0, hstr0, hnz0⟩ := hall n0 (List.mem_cons_self _ _)
      rw [List.pairwise_cons] at hpw
      obtain ⟨hfirst, hpw2⟩ := hpw
      rw [rpChain_cons_some ps buf pos tok n0 rest s0 hstr0]
      by_cases hsucc : s0.getD (pmLen buf pos s0 0) 0 = 0
      · rw [if_pos hsucc]
        have hl : pmLen buf pos s0 0 = s0.length := by
          have hle := pmLen_le buf pos s0 0
          rcases Nat.lt_or_ge (pmLen buf pos s0 0) s0.length with h7 | h7
          · exact absurd hsucc (hnz0 _ (getD_mem_of_lt h7))
          · omega
        refine ⟨(((s0.take (pmLen buf pos s0 0 + 1)).foldl token.append_char
            tok).set_type toktype.punctuation).set_flags (ps.getD n0 default).id,
          n0, s0, ?_, List.mem_cons_self _ _, hstr0, ?_, ?_⟩
        · rw [hl]
        · have hm2 := pmLen_matched buf pos s0 0 hnz0 (by rw [hl]; omega)
          intro j hj
          have h3 := hm2 j hj
          rwa [show pos + 0 + j = pos + j from by omega] at h3
        · rcases List.mem_cons.1 hm with rfl | hm2
          · rw [hstr0] at hsm
            injection hsm with h4
            exact le_of_eq (congrArg List.length h4.symm)
          · have hcb := hfirst m hm2
            have hpm : pstrlen ps m = sm.length := by
              unfold pstrlen
              rw [hsm]
              rfl
            have hp0 : pstrlen ps n0 = s0.length := by
              unfold pstrlen
              rw [hstr0]
              rfl
            rcases hcb with h5 | h5
            · rw [hpm, hp0] at h5
              exact le_of_lt h5
            · rw [hpm, hp0] at h5
              exact le_of_eq h5.1.symm
      · rw [if_neg hsucc]
        rcases List.mem_cons.1 hm with rfl | hm2
        · exfalso
          rw [hstr0] at hsm
          injection hsm with h4
          subst h4
          have hl : pmLen buf pos s0 0 = 0 + s0.length :=
            pmLen_of_match buf pos s0 0 hnz0 (fun j hj => by
              have h8 := hpre j hj
              rwa [show pos + j = pos + 0 + j from by omega] at h8)
          apply hsucc
          rw [hl]
          exact List.getD_eq_default _ _ (by omega)
        · obtain ⟨tk, n, sn, h1, h2, h3, h4, h5⟩ :=
            ih hpw2 (fun q hq => hall q (List.mem_cons_of_mem _ hq)) m sm hm2 hsm hpre
          exact ⟨tk, n, sn, h1, List.mem_cons_of_mem _ h2, h3, h4, h5⟩

/-- C1: the chains built by `set_punctuation_tables` list, for each first
character, exactly the non-null entries starting with it, sorted with
strictly longer texts first and ties in definition order; consequently
`internal_read_punctuation` accepts a punctuator at least as long as any
configured punctuator occurring at the position (longest match; the model
takes NUL-free punctuator texts, which the C string representation already
enforces). -/
theorem C1_longest_match :
    (∀ (ps : List punctuation_def) (c : Nat),
       ((set_punctuation_tables ps).chains c).Pairwise (chainBefore ps)) ∧
    (∀ (ps : List punctuation_def) (c : Nat) (j : Nat),
       j ∈ (set_punctuation_tables ps).chains c ↔
         (j < ps.length ∧ ∃ s, (ps.getD j default).str = some s ∧ s.headD 0 = c)) ∧
    (∀ (ps : List punctuation_def) (buf : List Nat) (pos : Nat) (tok : token)
       (m : Nat) (sm : List Nat),
       (∀ n, n < ps.length → ∀ c ∈ ((ps.getD n default).str.getD []), c ≠ 0) →
       m < ps.length → (ps.getD m default).str = some sm → sm ≠ [] →
       isPrefixAt sm buf pos →
       ∃ tk n sn,
         internal_read_punctuation (set_punctuation_tables ps).defs
             (set_punctuation_tables ps).chains buf pos tok = some (tk, pos + sn.length) ∧
         n < ps.length ∧ (ps.getD n default).str = some sn ∧
         isPrefixAt sn buf pos ∧ sm.length ≤ sn.length) := by
  refine ⟨?_, ?_, ?_⟩
  · intro ps c
    exact (buildChainsAux ps ps.length c).1
  · intro ps c j
    exact (buildChainsAux ps ps.length c).2 j
  · intro ps buf pos tok m sm hnz hm hsm hne hpre
    have hhead : sm.headD 0 = bAt buf pos := by
      have h0 := hpre 0 (List.length_pos.2 hne)
      cases sm with
      | nil => exact absurd rfl hne
      | cons a t => simpa using h0.symm
    have hmem : m ∈ buildChains ps (bAt buf pos) :=
      ((buildChainsAux ps ps.length (bAt buf pos)).2 m).2 ⟨hm, sm, hsm, hhead⟩
    have hpw : (buildChains ps (bAt buf pos)).Pairwise (chainBefore ps) :=
      (buildChainsAux ps ps.length (bAt buf pos)).1
    have hall : ∀ n ∈ buildChains ps (bAt buf pos),
        ∃ s, (ps.getD n default).str = some s ∧ (∀ c ∈ s, c ≠ 0) := by
      intro n hn
      obtain ⟨h1, s, hs1, hs2⟩ := ((buildChainsAux ps ps.length (bAt buf pos)).2 n).1 hn
      refine ⟨s, hs1, ?_⟩
      have := hnz n h1
      rw [hs1] at this
      simpa using this
    obtain ⟨tk, n, sn, h1, h2, h3, h4, h5⟩ :=
      rpChain_longest ps buf pos tok (buildChains ps (bAt buf pos)) hpw hall m sm
        hmem hsm hpre
    have hn2 : n < ps.length :=
      (((buildChainsAux ps ps.length (bAt buf pos)).2 n).1 h2).1
    exact ⟨tk, n, sn, h1, hn2, h3, h4, h5⟩

/-- Witness for C1: on the input `>>=`, matching the two-character
punctuator `>>` (entry 7 of the default set) is trumped by a configured
punctuator of length at least 2 — the scanner takes `>>=`. -/
theorem C1_witness :
    ∃ tk n sn,
      internal_read_punctuation (set_punctuation_tables default_punctuations).defs
          (set_punctuation_tables default_punctuations).chains [62, 62, 61] 0 {} =
        some (tk, 0 + sn.length) ∧
      n < default_punctuations.length ∧
      (default_punctuations.getD n default).str = some sn ∧
      isPrefixAt sn [62, 62, 61] 0 ∧
      ([62, 62] : List Nat).length ≤ sn.length :=
  C1_longest_match.2.2 default_punctuations [62, 62, 61] 0 {} 7 [62, 62]
    (by decide) (by decide) (by rfl) (by decide)
    (by
      intro j hj
      simp only [List.length_cons, List.length_nil] at hj
      interval_cases j <;> rfl)

end lexer
